import Mathlib

/-
  A verification development for the Memory Scramble game board
  (`Board` class in `src/board.ts`).

  The board is modelled as a pure state: operations that in the source
  acquire the global exclusion lock are modelled as atomic state
  transformers (the lock serializes them, so the state observable between
  operations is exactly the sequence of states produced here).  Suspended
  continuations (per-position card waiters, one-shot watchers) are
  modelled as opaque numeric tokens stored in the state.
-/

namespace MemoryScramble

/-- A spot on the board: `type Spot` in the source.  `card` is `null`
when the card has been removed, `controller` is the id of the player
currently holding the card face up. -/
structure Spot where
  card : Option String
  faceUp : Bool
  controller : Option String
deriving Repr, DecidableEq

/-- The board state.  `grid` is the rectangular grid of spots;
`cardWaiters` models the `Map` from `"row,col"` keys to the list of
callbacks suspended on that position; `watchers` models the set of
pending one-shot change subscriptions.  The lock fields of the source
are not part of the observable state: operations are atomic here. -/
structure Board where
  rows : Nat
  cols : Nat
  grid : List (List Spot)
  cardWaiters : List ((Nat × Nat) × List Nat)
  watchers : List Nat
deriving Repr, DecidableEq

/-- `CARD_REGEX = /^[^\s\n\r]+$/u`: a card token is nonempty and contains
no whitespace. -/
def isValidCard (s : String) : Bool :=
  (!s.isEmpty) && s.toList.all (fun ch => !ch.isWhitespace)

/-- JavaScript truthiness of a `string | null` value: `null` and the
empty string are falsy. -/
def truthy : Option String → Bool
  | none => false
  | some s => !s.isEmpty

/-- Replace the element at an index of a list, in place
(mutation `l[n] = f l[n]` of the source). -/
def listModify (f : α → α) : Nat → List α → List α
  | _, [] => []
  | 0, a :: as => f a :: as
  | n + 1, a :: as => a :: listModify f n as

/-- `this.grid[row]?.[col]` of the source. -/
def getSpot (b : Board) (r c : Nat) : Option Spot :=
  (b.grid.get? r).bind fun row => row.get? c

/-- In-place mutation of the spot at `(r, c)`. -/
def modifySpot (b : Board) (r c : Nat) (f : Spot → Spot) : Board :=
  { b with grid := listModify (listModify f c) r b.grid }

/-- The row-major traversal order `for r < rows, for c < cols` used by
every loop in the source. -/
def indicesRM (b : Board) : List (Nat × Nat) :=
  (List.range b.rows).flatMap fun r => (List.range b.cols).map fun c => (r, c)

/-- `notifyWatchers`: wake every watcher and clear the set. -/
def notifyWatchers (b : Board) : Board :=
  { b with watchers := [] }

/-- `notifyCardWaiters(row, col)`: wake every waiter registered for that
exact position and delete that position's queue. -/
def notifyCardWaiters (b : Board) (r c : Nat) : Board :=
  { b with cardWaiters := b.cardWaiters.filter (fun e => e.1 ≠ (r, c)) }

/-- The queue of waiters registered for position `(r, c)`
(`this.cardWaiters.get(key)` with `[]` for a missing key). -/
def waitersAt (b : Board) (r c : Nat) : List Nat :=
  match b.cardWaiters.find? (fun e => e.1 = (r, c)) with
  | some e => e.2
  | none => []

/-- `waitForCard(row, col)`: push a suspension (token `tok`) onto the
queue for `(row, col)`.  `Map.set` keyed by the position. -/
def waitForCard (b : Board) (r c : Nat) (tok : Nat) : Board :=
  let old := waitersAt b r c
  let rest := b.cardWaiters.filter (fun e => e.1 ≠ (r, c))
  { b with cardWaiters := rest ++ [((r, c), old ++ [tok])] }

/-- The per-spot test `spot.controller === player && spot.faceUp &&
spot.card` (the last conjunct is JS truthiness) shared by the
`playerCards` collection of `cleanupCompletedTurns` and the `firstCard`
search of `flipCard`, yielding the position and card value on success. -/
def collectSpot (b : Board) (p : String) (rc : Nat × Nat) :
    Option (Nat × Nat × String) :=
  match getSpot b rc.1 rc.2 with
  | some ⟨some v, true, ctrl⟩ =>
      if ctrl = some p ∧ ¬v.isEmpty then some (rc.1, rc.2, v) else none
  | _ => none

/-- The `playerCards` collection of `cleanupCompletedTurns`, in
row-major order. -/
def playerCardsOf (b : Board) (p : String) : List (Nat × Nat × String) :=
  (indicesRM b).filterMap (collectSpot b p)

/-- The per-spot test `s.controller === player && s.faceUp` of the
`controlledCount` loop of `flipCard`. -/
def countSpot (b : Board) (p : String) (rc : Nat × Nat) : Bool :=
  match getSpot b rc.1 rc.2 with
  | some s => s.controller = some p ∧ s.faceUp
  | none => false

/-- The `controlledCount` loop of `flipCard`: the number of spots with
`s.controller === player && s.faceUp`. -/
def controlledCount (b : Board) (p : String) : Nat :=
  ((indicesRM b).filter (countSpot b p)).length

/-- RULE 3-A of `cleanupCompletedTurns`: if the player controls exactly
two face-up cards and they match, remove both and notify the waiters for
both positions. -/
def cleanupMatched (p : String) (b : Board) : Board × Bool :=
  match playerCardsOf b p with
  | [(r1, c1, v1), (r2, c2, v2)] =>
      if v1 = v2 then
        let b1 := modifySpot b r1 c1 fun _ => ⟨none, false, none⟩
        let b2 := modifySpot b1 r2 c2 fun _ => ⟨none, false, none⟩
        (notifyCardWaiters (notifyCardWaiters b2 r1 c1) r2 c2, true)
      else (b, false)
  | _ => (b, false)

/-- One iteration of the RULE 3-B loop of `cleanupCompletedTurns`: a
face-up spot with a card and no controller is turned face down and its
waiters are notified. -/
def flipDownStep (acc : Board × Bool) (rc : Nat × Nat) : Board × Bool :=
  match getSpot acc.1 rc.1 rc.2 with
  | some s =>
      if s.card.isSome ∧ s.faceUp ∧ s.controller.isNone then
        (notifyCardWaiters
          (modifySpot acc.1 rc.1 rc.2 fun sp => { sp with faceUp := false })
          rc.1 rc.2, true)
      else acc
  | none => acc

/-- `cleanupCompletedTurns(player)`: RULE 3-A, then the RULE 3-B loop
over the grid in row-major order.  Returns the new state and the
`cleanedUp` flag. -/
def cleanupCompletedTurns (p : String) (b : Board) : Board × Bool :=
  (indicesRM b).foldl flipDownStep (cleanupMatched p b)

/-- The first lines of `flipCard`: run the cleanup pass and, if it did
anything, notify the watchers. -/
def cleanedNotified (p : String) (b : Board) : Board :=
  let cu := cleanupCompletedTurns p b
  if cu.2 then notifyWatchers cu.1 else cu.1

/-- The outcome of one pass through `flipCard`'s retry loop: success,
a synchronous fault (the thrown error message), or suspension in the
card-availability registry.  Each outcome carries the state in which the
lock is released. -/
inductive FlipOutcome where
  | ok : Board → FlipOutcome
  | err : String → Board → FlipOutcome
  | wait : Board → FlipOutcome
deriving Repr, DecidableEq

/-- The board state in which a `flipCard` pass left the lock. -/
def stateOf : FlipOutcome → Board
  | .ok b => b
  | .err _ b => b
  | .wait b => b

/-- The error message of a fault outcome, if any. -/
def errMsgOf : FlipOutcome → Option String
  | .err m _ => some m
  | _ => none

/-- The `firstCard` search of `flipCard`: the first spot in row-major
order, skipping the just-flipped `(row, col)`, with
`s.controller === player && s.faceUp && s.card`. -/
def findFirstCard (b : Board) (p : String) (row col : Nat) :
    Option (Nat × Nat × String) :=
  (indicesRM b).findSome? fun rc =>
    if rc.1 = row ∧ rc.2 = col then none
    else collectSpot b p rc

/-- The body of `flipCard` after the cleanup pass, executed under the
lock: validation, the second-card checks, the flip itself, and the
immediate match/mismatch resolution (Rules 2-D / 2-E). -/
def flipLocked (p : String) (row col tok : Nat) (b : Board) : FlipOutcome :=
  if b.rows ≤ row ∨ b.cols ≤ col then .err "invalid coordinates" b
  else
    match getSpot b row col with
    | none => .err "cannot flip: no card at position" b
    | some spot =>
      if spot.card.isNone then .err "cannot flip: no card at position" b
      else
        let cnt := controlledCount b p
        if 2 ≤ cnt then .err "cannot flip: you already control 2 cards" b
        else
          let isSecond := cnt = 1
          if spot.controller = some p ∧ spot.faceUp then
            .err "cannot flip: card already controlled by you" b
          else if isSecond ∧ spot.controller.isSome then
            .err "cannot flip: card is controlled by another player" b
          else if ¬isSecond ∧ spot.controller.isSome ∧ spot.controller ≠ some p then
            .wait (waitForCard b row col tok)
          else
            let b1 := modifySpot b row col
              fun s => { s with faceUp := true, controller := some p }
            let b2 :=
              if isSecond then
                match findFirstCard b1 p row col with
                | some fc =>
                    if some fc.2.2 ≠ spot.card then
                      modifySpot
                        (modifySpot b1 row col fun s => { s with controller := none })
                        fc.1 fc.2.1 fun s => { s with controller := none }
                    else b1
                | none => b1
              else b1
            .ok (notifyWatchers b2)

/-- One pass of `flipCard(player, row, col)`: the cleanup pass (with its
watcher notification) followed by the locked flip protocol.  A `.wait`
outcome means the caller suspends on the card-availability registry and,
once resumed, re-runs `flipCard` from the cleanup pass (the
`while (true)` retry loop of the source). -/
def flipCard (p : String) (row col tok : Nat) (b : Board) : FlipOutcome :=
  flipLocked p row col tok (cleanedNotified p b)

/-- `viewOf(spot, player)`. -/
def viewOf (spot : Spot) (p : String) : String :=
  match spot.card with
  | none => "none"
  | some card =>
      if !spot.faceUp then "down"
      else if spot.controller = some p then "my " ++ card
      else "up " ++ card

/-- The lines built by `renderFor(player)`: the `RxC` dimension line
followed by one line per spot in row-major order. -/
def renderLines (b : Board) (p : String) : List String :=
  (toString b.rows ++ "x" ++ toString b.cols) ::
    ((indicesRM b).filterMap fun rc => (getSpot b rc.1 rc.2).map fun s => viewOf s p)

/-- `renderFor(player)`: the lines joined with newlines, plus a final
newline.  Reads the state under the lock and never mutates it. -/
def renderFor (b : Board) (p : String) : String :=
  String.intercalate "\n" (renderLines b p) ++ "\n"

/-- `watch(player)`: register a one-shot watcher under the lock, then
release the lock and suspend.  Only the registration mutates the state. -/
def watchRegister (tok : Nat) (b : Board) : Board :=
  { b with watchers := b.watchers ++ [tok] }

/-- One iteration of the snapshot loop of `mapCards`:
`if (spot.card !== null) uniqueCards.add(spot.card)` (`Set` insertion
order, so a new value is appended). -/
def collectStep (b : Board) (acc : List String) (rc : Nat × Nat) : List String :=
  match getSpot b rc.1 rc.2 with
  | some s =>
      match s.card with
      | some v => if v ∈ acc then acc else acc ++ [v]
      | none => acc
  | none => acc

/-- The snapshot phase of `mapCards`: the distinct card values present
on the board, in first-seen row-major order (insertion order of the
`Set`). -/
def collectUniqueCards (b : Board) : List String :=
  (indicesRM b).foldl (collectStep b) []

/-- The arguments on which the compute phase of `mapCards` invokes the
transform `f`: the loop calls `f` on each distinct value in turn and
aborts at the first invalid result, so later values are never passed
to `f`. -/
def transformCalls (f : String → String) : List String → List String
  | [] => []
  | v :: vs => v :: (if isValidCard (f v) then transformCalls f vs else [])

/-- The compute phase of `mapCards`: build the value-to-value map,
failing at the first transformed card that violates `CARD_REGEX`. -/
def computeTransform (f : String → String) :
    List String → Except String (List (String × String))
  | [] => .ok []
  | v :: vs =>
      let nv := f v
      if isValidCard nv then
        (computeTransform f vs).map fun rest => (v, nv) :: rest
      else .error ("invalid transformed card: " ++ nv)

/-- `transformedCards.get(v) ?? v`. -/
def remap (m : List (String × String)) (v : String) : String :=
  match m.lookup v with
  | some nv => nv
  | none => v

/-- The spot rewrite performed by the apply phase on one cell:
`if (spot.card !== null && transformedCards.has(spot.card))
   spot.card = transformedCards.get(spot.card) ?? spot.card`. -/
def applySpotT (m : List (String × String)) (s : Spot) : Spot :=
  match s.card with
  | some v => if (m.lookup v).isSome then { s with card := some (remap m v) } else s
  | none => s

/-- The apply phase of `mapCards`: rewrite every spot using only the
precomputed mapping. -/
def applyTransform (m : List (String × String)) (b : Board) : Board :=
  { b with grid := b.grid.map fun row => row.map (applySpotT m) }

/-- `mapCards(player, f)`: snapshot, compute (aborting on an invalid
transformed card, before any change is applied), apply + watcher
notification, then render the resulting state for the caller. -/
def mapCards (p : String) (f : String → String) (b : Board) :
    Except String (String × Board) :=
  match computeTransform f (collectUniqueCards b) with
  | .error e => .error e
  | .ok m =>
      let b1 := notifyWatchers (applyTransform m b)
      .ok (renderFor b1 p, b1)

/-- The private `Board` constructor: a `rows × cols` grid of face-down,
uncontrolled spots taking cards from the row-major sequence
(`cardsRowMajor[i] ?? null`). -/
def mkBoard (rows cols : Nat) (cards : List String) : Board :=
  { rows := rows, cols := cols,
    grid := (List.range rows).map fun r =>
      (List.range cols).map fun c =>
        { card := cards.get? (r * cols + c), faceUp := false, controller := none },
    cardWaiters := [], watchers := [] }

/-- Split a character list at a separator character, `String.split`
style: `"a\nb\n"` gives `["a", "b", ""]`. -/
def splitOnChar (sep : Char) : List Char → List (List Char)
  | [] => [[]]
  | ch :: rest =>
      if ch = sep then [] :: splitOnChar sep rest
      else
        match splitOnChar sep rest with
        | [] => [[ch]]
        | l :: ls => (ch :: l) :: ls

/-- `raw.replace(/\r\n/g, '\n').replace(/\r/g, '\n')`. -/
def normalizeNewlines : List Char → List Char
  | [] => []
  | '\r' :: '\n' :: rest => '\n' :: normalizeNewlines rest
  | '\r' :: rest => '\n' :: normalizeNewlines rest
  | ch :: rest => ch :: normalizeNewlines rest

/-- Drop trailing empty lines (the `while` loop that pops `''`). -/
def stripTrailingEmpties (ls : List String) : List String :=
  (ls.reverse.dropWhile (fun s => s.isEmpty)).reverse

/-- `line.trim()`. -/
def trimString (s : String) : String :=
  ⟨((s.toList.dropWhile (·.isWhitespace)).reverse.dropWhile (·.isWhitespace)).reverse⟩

/-- Parse the `^(\d+)x(\d+)$` dimension line. -/
def parseDims (s : String) : Option (Nat × Nat) :=
  match (splitOnChar 'x' s.toList).map (fun cs => String.mk cs) with
  | [a, b] =>
      if a.isEmpty ∨ ¬a.toList.all (·.isDigit) ∨ b.isEmpty ∨ ¬b.toList.all (·.isDigit)
      then none
      else some (a.toList.foldl (fun acc ch => acc * 10 + (ch.toNat - 48)) 0,
                 b.toList.foldl (fun acc ch => acc * 10 + (ch.toNat - 48)) 0)
  | _ => none

/-- `Board.parseFromFile`, applied to the contents of the file:
normalize newlines, split into lines, pop trailing empty lines, parse
the dimension line, check the card count, validate every card, and
construct the board. -/
def parseFromFile (raw : String) : Except String Board :=
  let lines := stripTrailingEmpties
    ((splitOnChar '\n' (normalizeNewlines raw.toList)).map fun cs => String.mk cs)
  match lines with
  | [] => .error "empty board file"
  | dimsLine :: cardLines =>
    let dims := trimString dimsLine
    if dims.isEmpty then .error "missing dimension line"
    else
      match parseDims dims with
      | none => .error ("invalid dimension line: " ++ dims)
      | some (rows, cols) =>
        if rows = 0 ∨ cols = 0 then .error "rows and cols must be positive"
        else if cardLines.length ≠ rows * cols then
          .error "wrong number of card lines"
        else
          let cards := cardLines.map trimString
          if cards.all isValidCard then .ok (mkBoard rows cols cards)
          else .error "invalid card"

/-- An operation issued by some caller.  `tok` identifies the suspension
created when the operation parks (card waiter for `flip`, watcher for
`watch`). -/
inductive Op where
  | flip (p : String) (r c tok : Nat)
  | map (p : String) (f : String → String)
  | render (p : String)
  | watch (p : String) (tok : Nat)

/-- The state observable after an operation completes, faults, or parks
(renderFor reads but never writes; a failed map leaves the state
untouched). -/
def applyOp : Op → Board → Board
  | .flip p r c tok, b => stateOf (flipCard p r c tok b)
  | .map p f, b =>
      match mapCards p f b with
      | .ok x => x.2
      | .error _ => b
  | .render _, b => b
  | .watch _ tok, b => watchRegister tok b

/-- Run a sequence of operations. -/
def runOps (ops : List Op) (b : Board) : Board :=
  ops.foldl (fun b op => applyOp op b) b

/-- The two spot invariants of the representation invariant asserted by
`checkRep`: a removed position is face down and uncontrolled, and a
controlled position is face up. -/
def spotInv (s : Spot) : Bool :=
  (s.card.isSome || (!s.faceUp && s.controller.isNone)) &&
  (s.controller.isNone || s.faceUp)

/-- The card-format part of `checkRep`: a present card matches
`CARD_REGEX`. -/
def cardOk (s : Spot) : Bool :=
  match s.card with
  | some v => isValidCard v
  | none => true

/-- A spot satisfying the whole of `checkRep`'s per-spot assertions. -/
def spotOk (s : Spot) : Bool := spotInv s && cardOk s

/-- The invariant of claim C1 over the whole grid. -/
def boardInv (b : Board) : Bool :=
  b.grid.all fun row => row.all spotInv

/-- `checkRep`'s per-spot assertions over the whole grid. -/
def repOk (b : Board) : Bool :=
  b.grid.all fun row => row.all spotOk

/-- Whether some spot currently holds the card value `v`. -/
def cardPresent (b : Board) (v : String) : Bool :=
  (indicesRM b).any fun rc =>
    match getSpot b rc.1 rc.2 with
    | some s => s.card = some v
    | none => false

/-- The grid really is a `rows × cols` rectangle (established by the
constructor and never changed). -/
def shapeOk (b : Board) : Prop :=
  b.grid.length = b.rows ∧ ∀ row ∈ b.grid, row.length = b.cols

instance (b : Board) : Decidable (shapeOk b) := by
  unfold shapeOk
  infer_instance

/-- The player holds a completed pair at the two given cells: the
cleanup collection for `p` consists of exactly those two cells, bearing
the same card value. -/
def heldPairAt (b : Board) (p : String) (r1 c1 r2 c2 : Nat) : Prop :=
  ∃ v, playerCardsOf b p = [(r1, c1, v), (r2, c2, v)]

/-- An operation that is not a `flipCard` call by player `p`. -/
def isNotFlipBy (p : String) : Op → Bool
  | .flip q _ _ _ => q ≠ p
  | _ => true

/-! ### Concrete scenario boards (used to instantiate the theorems) -/

/-- The `2x2` board file with cards `A A B B` from the handout scenario. -/
def exRawAABB : String := "2x2\nA\nA\nB\nB\n"

/-- The scenario board `2x2` with cards `[A, A, B, B]`. -/
def exAABB : Board := mkBoard 2 2 ["A", "A", "B", "B"]

/-- `p1` flipped `(0,0)`. -/
def exAABB1 : Board := stateOf (flipCard "p1" 0 0 10 exAABB)

/-- `p1` flipped `(0,0)` then `(0,1)`: a completed matching pair. -/
def exAABB2 : Board := stateOf (flipCard "p1" 0 1 11 exAABB1)

/-- `p1` then flipped `(1,0)`: cleanup removed the pair, `(1,0)` held. -/
def exAABB3 : Board := stateOf (flipCard "p1" 1 0 12 exAABB2)

/-- A `2x2` board with four distinct cards. -/
def exABCD : Board := mkBoard 2 2 ["A", "B", "C", "D"]

/-- `p1` flipped `(0,0)` on the distinct board. -/
def exABCD1 : Board := stateOf (flipCard "p1" 0 0 20 exABCD)

/-- `p2` then attempted `(0,0)` as a first card: suspended, waiter
token `77` registered for `(0,0)`. -/
def exABCD2 : Board := stateOf (flipCard "p2" 0 0 77 exABCD1)

/-- `p1` then flipped `(1,0)`: a completed non-matching pair, both
controllers cleared. -/
def exABCD3 : Board := stateOf (flipCard "p1" 1 0 21 exABCD2)

/-- A `1x2` board with a matching pair. -/
def exAA : Board := mkBoard 1 2 ["A", "A"]

/-- `p1` flipped `(0,0)` on the `1x2` board. -/
def exAA1 : Board := stateOf (flipCard "p1" 0 0 30 exAA)

/-- `p1` flipped `(0,0)` then `(0,1)`: holds the completed matched pair. -/
def exAA2 : Board := stateOf (flipCard "p1" 0 1 31 exAA1)

/-- A transform that maps `A` to an invalid token (it contains a space)
and keeps every other card. -/
def exBadF : String → String := fun v => if v = "A" then "x y" else v

/-- A well-behaved transform appending a letter to every card. -/
def exMapF : String → String := fun v => v ++ "Z"

/-! ### Generic list lemmas -/

theorem listModify_get?_ne {f : α → α} {n m : Nat} (h : n ≠ m) :
    ∀ l : List α, (listModify f n l).get? m = l.get? m := by
  induction n generalizing m with
  | zero =>
      intro l
      cases l with
      | nil => rfl
      | cons a as =>
          cases m with
          | zero => exact absurd rfl h
          | succ m => rfl
  | succ n ih =>
      intro l
      cases l with
      | nil => rfl
      | cons a as =>
          cases m with
          | zero => rfl
          | succ m =>
              simp only [listModify, List.get?_cons_succ]
              exact ih (fun hnm => h (by rw [hnm])) as

theorem listModify_get?_self {f : α → α} :
    ∀ (n : Nat) (l : List α), (listModify f n l).get? n = (l.get? n).map f := by
  intro n
  induction n with
  | zero =>
      intro l
      cases l <;> rfl
  | succ n ih =>
      intro l
      cases l with
      | nil => rfl
      | cons a as => simpa [listModify] using ih as

theorem listModify_all {q : α → Bool} {f : α → α} {n : Nat} {l : List α}
    (h : l.all q = true) (hf : ∀ a, l.get? n = some a → q (f a) = true) :
    (listModify f n l).all q = true := by
  induction l generalizing n with
  | nil => simp [listModify]
  | cons a as ih =>
      cases n with
      | zero =>
          simp only [listModify, List.all_cons, Bool.and_eq_true] at h ⊢
          exact ⟨hf a rfl, h.2⟩
      | succ n =>
          simp only [listModify, List.all_cons, Bool.and_eq_true] at h ⊢
          exact ⟨h.1, ih h.2 (fun a ha => hf a ha)⟩

theorem find?_append_of_none {q : α → Bool} {l1 l2 : List α}
    (h : ∀ a ∈ l1, q a = false) :
    List.find? q (l1 ++ l2) = List.find? q l2 := by
  induction l1 with
  | nil => rfl
  | cons a as ih =>
      have ha := h a (by simp)
      simp only [List.cons_append, List.find?_cons, ha]
      exact ih (fun x hx => h x (by simp [hx]))

theorem findSome?_eq_some_of_unique {F : α → Option β} {l : List α} {x : β}
    (a0 : α) (hmem : a0 ∈ l) (ha0 : F a0 = some x)
    (huniq : ∀ a ∈ l, a ≠ a0 → F a = none) :
    l.findSome? F = some x := by
  induction l with
  | nil => cases hmem
  | cons a as ih =>
      by_cases hea : a = a0
      · subst hea
        simp [List.findSome?_cons, ha0]
      · have hna : F a = none := huniq a (by simp) hea
        have hmem' : a0 ∈ as := by
          cases hmem with
          | head => exact absurd rfl hea
          | tail _ h => exact h
        simp only [List.findSome?_cons, hna]
        exact ih hmem' (fun b hb hne => huniq b (by simp [hb]) hne)

theorem eq_of_mem_length_le_one {l : List α} (hlen : l.length ≤ 1)
    {a b : α} (ha : a ∈ l) (hb : b ∈ l) : a = b := by
  cases l with
  | nil => cases ha
  | cons x xs =>
      cases xs with
      | nil =>
          have h1 : a = x := by simpa using ha
          have h2 : b = x := by simpa using hb
          rw [h1, h2]
      | cons y ys => simp at hlen

theorem length_filterMap_le_filter {F : α → Option β} {q : α → Bool} {l : List α}
    (h : ∀ a ∈ l, (F a).isSome → q a = true) :
    (l.filterMap F).length ≤ (l.filter q).length := by
  induction l with
  | nil => simp
  | cons a as ih =>
      have ih' := ih (fun x hx => h x (by simp [hx]))
      cases hFa : F a with
      | none =>
          simp only [List.filterMap_cons, hFa, List.filter_cons]
          cases hqa : q a
          · exact ih'
          · simp only [if_pos rfl, List.length_cons]
            exact Nat.le_succ_of_le ih'
      | some y =>
          have hqa : q a = true := h a (by simp) (by simp [hFa])
          simp only [List.filterMap_cons, hFa, List.filter_cons, hqa, if_pos rfl,
            List.length_cons]
          exact Nat.succ_le_succ ih'

theorem filterMap_eq_pair_pos_ne {γ : Type} {F : Nat × Nat → Option (Nat × Nat × γ)}
    {l : List (Nat × Nat)} (hnd : l.Nodup)
    (hpos : ∀ a x, F a = some x → (x.1, x.2.1) = a)
    {x y : Nat × Nat × γ} (h : l.filterMap F = [x, y]) :
    (x.1, x.2.1) ≠ (y.1, y.2.1) := by
  induction l with
  | nil => simp at h
  | cons a as ih =>
      rw [List.filterMap_cons] at h
      cases hFa : F a with
      | none =>
          rw [hFa] at h
          exact ih hnd.of_cons h
      | some z =>
          rw [hFa] at h
          have hz : z = x ∧ as.filterMap F = [y] := by
            constructor
            · exact (List.cons_eq_cons.mp h).1
            · exact (List.cons_eq_cons.mp h).2
          have hy : y ∈ as.filterMap F := by rw [hz.2]; simp
          obtain ⟨b, hb, hFb⟩ := List.mem_filterMap.mp hy
          have hxa : (x.1, x.2.1) = a := hz.1 ▸ hpos a z hFa
          have hyb : (y.1, y.2.1) = b := hpos b y hFb
          rw [hxa, hyb]
          intro hab
          subst hab
          exact (List.nodup_cons.mp hnd).1 hb

/-! ### Basic board lemmas -/

theorem indicesRM_nodup (b : Board) : (indicesRM b).Nodup := by
  rw [indicesRM, List.nodup_flatMap]
  constructor
  · intro r _
    exact (List.nodup_range _).map (fun a b h => by simpa using h)
  · have : ∀ r s : Nat, r ≠ s →
        List.Disjoint ((List.range b.cols).map fun c => (r, c))
          ((List.range b.cols).map fun c => (s, c)) := by
      intro r s hrs x hxr hxs
      obtain ⟨c1, _, hc1⟩ := List.mem_map.mp hxr
      obtain ⟨c2, _, hc2⟩ := List.mem_map.mp hxs
      rw [← hc1] at hc2
      exact hrs (congrArg Prod.fst hc2).symm
    exact (List.nodup_range b.rows).pairwise_of_forall_ne
      (fun r hr s hs hrs => this r s hrs)

theorem mem_indicesRM {b : Board} {r c : Nat} :
    (r, c) ∈ indicesRM b ↔ r < b.rows ∧ c < b.cols := by
  simp only [indicesRM, List.mem_flatMap, List.mem_map, List.mem_range]
  constructor
  · rintro ⟨r', hr', c', hc', heq⟩
    obtain ⟨h1, h2⟩ := Prod.mk.injEq .. ▸ heq
    exact ⟨h1 ▸ hr', h2 ▸ hc'⟩
  · rintro ⟨hr, hc⟩
    exact ⟨r, hr, c, hc, rfl⟩

theorem getSpot_isSome_of_mem {b : Board} {r c : Nat}
    (hshape : b.grid.length = b.rows ∧ ∀ row ∈ b.grid, row.length = b.cols)
    (hr : r < b.rows) (hc : c < b.cols) : (getSpot b r c).isSome := by
  rw [getSpot]
  cases hrowE : b.grid.get? r with
  | none =>
      have h1 := List.get?_eq_none.mp hrowE
      have h2 := hshape.1
      omega
  | some row =>
      have hmem := List.get?_mem hrowE
      have hlen := hshape.2 _ hmem
      cases hcE : row.get? c with
      | none =>
          have h1 := List.get?_eq_none.mp hcE
          omega
      | some s =>
          show (row.get? c).isSome
          rw [hcE]
          rfl

theorem getSpot_mem_grid {b : Board} {r c : Nat} {s : Spot}
    (h : getSpot b r c = some s) : ∃ row ∈ b.grid, s ∈ row := by
  rw [getSpot] at h
  cases hrow : b.grid.get? r with
  | none => rw [hrow] at h; cases h
  | some row =>
      rw [hrow] at h
      exact ⟨row, List.get?_mem hrow, List.get?_mem (h : row.get? c = some s)⟩

theorem getSpot_modifySpot_self {b : Board} {r c : Nat} {f : Spot → Spot} :
    getSpot (modifySpot b r c f) r c = (getSpot b r c).map f := by
  rw [getSpot, getSpot, modifySpot]
  simp only
  rw [listModify_get?_self]
  cases b.grid.get? r with
  | none => rfl
  | some row => exact listModify_get?_self c row

theorem getSpot_modifySpot_ne {b : Board} {r c r' c' : Nat} {f : Spot → Spot}
    (h : (r, c) ≠ (r', c')) :
    getSpot (modifySpot b r c f) r' c' = getSpot b r' c' := by
  rw [getSpot, getSpot, modifySpot]
  simp only
  by_cases hr : r = r'
  · subst hr
    have hc : c ≠ c' := fun hc => h (by rw [hc])
    rw [listModify_get?_self]
    cases b.grid.get? r with
    | none => rfl
    | some row => exact listModify_get?_ne hc row
  · rw [listModify_get?_ne hr]

/-! ### Field-preservation facts for the grid-free mutations -/

theorem repOk_notifyWatchers (b : Board) : repOk (notifyWatchers b) = repOk b := rfl

theorem repOk_notifyCardWaiters (b : Board) (r c : Nat) :
    repOk (notifyCardWaiters b r c) = repOk b := rfl

theorem repOk_waitForCard (b : Board) (r c tok : Nat) :
    repOk (waitForCard b r c tok) = repOk b := rfl

theorem getSpot_notifyWatchers (b : Board) (r c : Nat) :
    getSpot (notifyWatchers b) r c = getSpot b r c := rfl

theorem getSpot_notifyCardWaiters (b : Board) (r0 c0 r c : Nat) :
    getSpot (notifyCardWaiters b r0 c0) r c = getSpot b r c := rfl

theorem getSpot_waitForCard (b : Board) (r0 c0 tok r c : Nat) :
    getSpot (waitForCard b r0 c0 tok) r c = getSpot b r c := rfl

theorem getSpot_watchRegister (b : Board) (tok : Nat) (r c : Nat) :
    getSpot (watchRegister tok b) r c = getSpot b r c := rfl

/-! ### The representation invariant and its preservation -/

theorem repOk_getSpot {b : Board} {r c : Nat} {s : Spot}
    (h : repOk b = true) (hs : getSpot b r c = some s) : spotOk s = true := by
  obtain ⟨row, hrow, hsrow⟩ := getSpot_mem_grid hs
  have h1 := (List.all_eq_true.mp h) row hrow
  exact (List.all_eq_true.mp h1) s hsrow

theorem spotInv_of_spotOk {s : Spot} (h : spotOk s = true) : spotInv s = true := by
  rw [spotOk, Bool.and_eq_true] at h
  exact h.1

theorem boardInv_of_repOk {b : Board} (h : repOk b = true) : boardInv b = true := by
  rw [boardInv, List.all_eq_true]
  intro row hrow
  rw [List.all_eq_true]
  intro s hs
  have h1 := (List.all_eq_true.mp h) row hrow
  exact spotInv_of_spotOk ((List.all_eq_true.mp h1) s hs)

theorem repOk_modifySpot {b : Board} {r c : Nat} {f : Spot → Spot}
    (h : repOk b = true)
    (hf : ∀ s, getSpot b r c = some s → spotOk (f s) = true) :
    repOk (modifySpot b r c f) = true := by
  rw [repOk, modifySpot]
  apply listModify_all h
  intro row hrow
  have hall : row.all spotOk = true :=
    (List.all_eq_true.mp h) row (List.get?_mem hrow)
  apply listModify_all hall
  intro s hsc
  apply hf
  rw [getSpot, hrow]
  exact hsc

theorem spotOk_removed : spotOk ⟨none, false, none⟩ = true := rfl

theorem spotOk_faceDown {s : Spot} (hc : s.controller.isNone = true)
    (h : spotOk s = true) : spotOk { s with faceUp := false } = true := by
  obtain ⟨card, fu, ctrl⟩ := s
  cases ctrl with
  | some q => simp [Option.isNone] at hc
  | none =>
      cases card <;> simp_all [spotOk, spotInv, cardOk]

theorem spotOk_clearCtrl {s : Spot} (h : spotOk s = true) :
    spotOk { s with controller := none } = true := by
  obtain ⟨card, fu, ctrl⟩ := s
  cases card <;> cases fu <;> cases ctrl <;> simp_all [spotOk, spotInv, cardOk]

theorem spotOk_flipUp {s : Spot} {p : String} (hc : s.card.isSome = true)
    (h : spotOk s = true) :
    spotOk { s with faceUp := true, controller := some p } = true := by
  obtain ⟨card, fu, ctrl⟩ := s
  cases card with
  | none => simp [Option.isSome] at hc
  | some v => simp_all [spotOk, spotInv, cardOk]

theorem repOk_cleanupMatched {p : String} {b : Board} (h : repOk b = true) :
    repOk (cleanupMatched p b).1 = true := by
  rw [cleanupMatched]
  split
  · split
    · apply repOk_modifySpot
      · apply repOk_modifySpot h
        intro s _
        exact spotOk_removed
      · intro s _
        exact spotOk_removed
    · exact h
  · exact h

theorem repOk_flipDownStep {acc : Board × Bool} {rc : Nat × Nat}
    (h : repOk acc.1 = true) : repOk (flipDownStep acc rc).1 = true := by
  rw [flipDownStep]
  split
  · rename_i s hs
    split
    · rename_i hcond
      show repOk (modifySpot acc.1 rc.1 rc.2 _) = true
      apply repOk_modifySpot h
      intro s' hs'
      rw [hs] at hs'
      cases hs'
      exact spotOk_faceDown hcond.2.2 (repOk_getSpot h hs)
    · exact h
  · exact h

theorem repOk_flipDownFold {l : List (Nat × Nat)} :
    ∀ {acc : Board × Bool}, repOk acc.1 = true →
      repOk (l.foldl flipDownStep acc).1 = true := by
  induction l with
  | nil => intro acc h; exact h
  | cons rc l ih =>
      intro acc h
      rw [List.foldl_cons]
      exact ih (repOk_flipDownStep h)

theorem repOk_cleanup {p : String} {b : Board} (h : repOk b = true) :
    repOk (cleanupCompletedTurns p b).1 = true := by
  rw [cleanupCompletedTurns]
  exact repOk_flipDownFold (repOk_cleanupMatched h)

theorem repOk_cleanedNotified {p : String} {b : Board} (h : repOk b = true) :
    repOk (cleanedNotified p b) = true := by
  rw [cleanedNotified]
  split
  · exact repOk_cleanup h
  · exact repOk_cleanup h

theorem repOk_stateOf_flipLocked {p : String} {row col tok : Nat} {b : Board}
    (h : repOk b = true) : repOk (stateOf (flipLocked p row col tok b)) = true := by
  simp only [flipLocked]
  split
  · exact h
  · split
    · exact h
    · rename_i spot hspot
      split
      · exact h
      · rename_i hcard
        split
        · exact h
        · split
          · exact h
          · split
            · exact h
            · split
              · exact h
              · have hb1 : repOk (modifySpot b row col
                    fun s => { s with faceUp := true, controller := some p }) = true := by
                  apply repOk_modifySpot h
                  intro s hs
                  rw [hspot] at hs
                  cases hs
                  apply spotOk_flipUp _ (repOk_getSpot h hspot)
                  cases hcs : spot.card with
                  | none => exact absurd (by rw [hcs]; rfl) hcard
                  | some v => rfl
                simp only [stateOf, repOk_notifyWatchers]
                split
                · split
                  · split
                    · apply repOk_modifySpot
                      · exact repOk_modifySpot hb1 fun s hs => spotOk_clearCtrl
                          (repOk_getSpot hb1 hs)
                      · intro s hs
                        exact spotOk_clearCtrl (repOk_getSpot
                          (repOk_modifySpot hb1 fun s' hs' => spotOk_clearCtrl
                            (repOk_getSpot hb1 hs')) hs)
                    · exact hb1
                  · exact hb1
                · exact hb1

theorem repOk_stateOf_flipCard {p : String} {row col tok : Nat} {b : Board}
    (h : repOk b = true) : repOk (stateOf (flipCard p row col tok b)) = true := by
  rw [flipCard]
  exact repOk_stateOf_flipLocked (repOk_cleanedNotified h)

theorem mem_of_lookup {m : List (String × String)} {v nv : String}
    (h : m.lookup v = some nv) : ∃ k, (k, nv) ∈ m := by
  induction m with
  | nil => cases h
  | cons kv m ih =>
      rw [List.lookup_cons] at h
      split at h
      · cases h
        exact ⟨kv.1, List.mem_cons_self kv m⟩
      · obtain ⟨k, hk⟩ := ih h
        exact ⟨k, List.mem_cons_of_mem kv hk⟩

theorem computeTransform_valid {f : String → String} :
    ∀ {l : List String} {m : List (String × String)},
      computeTransform f l = .ok m → ∀ kv ∈ m, isValidCard kv.2 = true := by
  intro l
  induction l with
  | nil =>
      intro m h kv hkv
      rw [computeTransform] at h
      cases h
      cases hkv
  | cons v vs ih =>
      intro m h kv hkv
      rw [computeTransform] at h
      split at h
      · rename_i hval
        cases hrec : computeTransform f vs with
        | error e => rw [hrec] at h; cases h
        | ok rest =>
            rw [hrec] at h
            cases h
            cases hkv with
            | head => exact hval
            | tail _ hmem => exact ih hrec kv hmem
      · cases h

theorem spotOk_applySpotT {m : List (String × String)} {s : Spot}
    (hm : ∀ kv ∈ m, isValidCard kv.2 = true)
    (h : spotOk s = true) : spotOk (applySpotT m s) = true := by
  rw [applySpotT]
  obtain ⟨card, fu, ctrl⟩ := s
  cases card with
  | none => exact h
  | some v =>
      simp only
      split
      · rename_i hls
        rw [Option.isSome_iff_exists] at hls
        obtain ⟨nv, hnv⟩ := hls
        obtain ⟨k, hk⟩ := mem_of_lookup hnv
        have hvalid : isValidCard (remap m v) = true := by
          rw [remap, hnv]
          exact hm (k, nv) hk
        cases fu <;> cases ctrl <;>
          simp_all [spotOk, spotInv, cardOk]
      · exact h

theorem repOk_applyTransform {m : List (String × String)} {b : Board}
    (hm : ∀ kv ∈ m, isValidCard kv.2 = true)
    (h : repOk b = true) : repOk (applyTransform m b) = true := by
  rw [repOk, applyTransform]
  simp only [List.all_map]
  rw [List.all_eq_true]
  intro row hrow
  simp only [Function.comp, List.all_map]
  rw [List.all_eq_true]
  intro s hs
  have h1 := (List.all_eq_true.mp h) row hrow
  exact spotOk_applySpotT hm ((List.all_eq_true.mp h1) s hs)

theorem repOk_mapCards {p : String} {f : String → String} {b b' : Board} {out : String}
    (h : repOk b = true) (hmap : mapCards p f b = .ok (out, b')) :
    repOk b' = true := by
  rw [mapCards] at hmap
  cases hcomp : computeTransform f (collectUniqueCards b) with
  | error e => rw [hcomp] at hmap; cases hmap
  | ok m =>
      rw [hcomp] at hmap
      have h2 := Except.ok.inj hmap
      have hb' : notifyWatchers (applyTransform m b) = b' := congrArg Prod.snd h2
      rw [← hb']
      show repOk (applyTransform m b) = true
      exact repOk_applyTransform (computeTransform_valid hcomp) h

theorem repOk_applyOp {op : Op} {b : Board} (h : repOk b = true) :
    repOk (applyOp op b) = true := by
  cases op with
  | flip p r c tok => exact repOk_stateOf_flipCard h
  | map p f =>
      rw [applyOp]
      cases hm : mapCards p f b with
      | error e => exact h
      | ok x => exact repOk_mapCards h (by rw [hm])
  | render p => exact h
  | watch p tok => exact h

theorem repOk_runOps {ops : List Op} :
    ∀ {b : Board}, repOk b = true → repOk (runOps ops b) = true := by
  induction ops with
  | nil => intro b h; exact h
  | cons op ops ih =>
      intro b h
      rw [runOps, List.foldl_cons]
      exact ih (repOk_applyOp h)

theorem spotOk_initial {card : Option String}
    (hc : ∀ v, card = some v → isValidCard v = true) :
    spotOk ⟨card, false, none⟩ = true := by
  cases card with
  | none => rfl
  | some v => simp [spotOk, spotInv, cardOk, hc v rfl]

theorem repOk_mkBoard {rows cols : Nat} {cards : List String}
    (hc : ∀ v ∈ cards, isValidCard v = true) :
    repOk (mkBoard rows cols cards) = true := by
  rw [repOk, mkBoard]
  simp only
  rw [List.all_eq_true]
  intro row hrow
  obtain ⟨r, hr, rfl⟩ := List.mem_map.mp hrow
  rw [List.all_eq_true]
  intro s hs
  obtain ⟨c, hcm, rfl⟩ := List.mem_map.mp hs
  apply spotOk_initial
  intro v hv
  exact hc v (List.get?_mem hv)

theorem repOk_parseFromFile {raw : String} {b : Board}
    (h : parseFromFile raw = .ok b) : repOk b = true := by
  simp only [parseFromFile] at h
  split at h
  · cases h
  · rename_i dimsLine cardLines
    split at h
    · cases h
    · split at h
      · cases h
      · rename_i dims
        split at h
        · cases h
        · split at h
          · cases h
          · split at h
            · rename_i hall
              cases h
              apply repOk_mkBoard
              intro v hv
              exact (List.all_eq_true.mp hall) v hv
            · cases h

/-! ### Characterizations of the per-spot collectors -/

theorem exists_of_findSome? {F : α → Option β} :
    ∀ {l : List α} {x : β}, l.findSome? F = some x → ∃ a ∈ l, F a = some x := by
  intro l
  induction l with
  | nil => intro x h; cases h
  | cons a as ih =>
      intro x h
      rw [List.findSome?_cons] at h
      cases hFa : F a with
      | some y =>
          rw [hFa] at h
          cases h
          exact ⟨a, by simp, hFa⟩
      | none =>
          rw [hFa] at h
          obtain ⟨b, hb, hFb⟩ := ih h
          exact ⟨b, by simp [hb], hFb⟩

theorem collectSpot_eq_some {b : Board} {p : String} {rc : Nat × Nat}
    {x : Nat × Nat × String} :
    collectSpot b p rc = some x ↔
      ∃ v, getSpot b rc.1 rc.2 = some ⟨some v, true, some p⟩ ∧
        v.isEmpty = false ∧ x = (rc.1, rc.2, v) := by
  rw [collectSpot]
  constructor
  · intro h
    split at h
    · rename_i v ctrl hs
      split at h
      · rename_i hcond
        cases h
        refine ⟨v, by rw [hs, hcond.1], ?_, rfl⟩
        have h2 := hcond.2
        revert h2
        cases v.isEmpty <;> decide
      · cases h
    · cases h
  · rintro ⟨v, hs, hv, rfl⟩
    rw [hs]
    simp [hv]

theorem collectSpot_eq_none {b : Board} {p : String} {rc : Nat × Nat}
    {s : Spot} (hs : getSpot b rc.1 rc.2 = some s)
    (h : s.controller ≠ some p ∨ s.faceUp = false ∨ truthy s.card = false) :
    collectSpot b p rc = none := by
  rw [collectSpot, hs]
  obtain ⟨card, fu, ctrl⟩ := s
  cases card with
  | none => cases fu <;> rfl
  | some v =>
      cases fu with
      | false => rfl
      | true =>
          simp only
          rw [if_neg]
          rintro ⟨h1, h2⟩
          rcases h with h | h | h
          · exact h h1
          · cases h
          · have hv : v.isEmpty = true := by
              revert h
              rw [truthy]
              cases v.isEmpty <;> decide
            exact h2 hv

theorem mem_playerCardsOf {b : Board} {p : String} {r c : Nat} {v : String}
    (h : (r, c, v) ∈ playerCardsOf b p) :
    r < b.rows ∧ c < b.cols ∧
      getSpot b r c = some ⟨some v, true, some p⟩ ∧ v.isEmpty = false := by
  rw [playerCardsOf] at h
  obtain ⟨rc, hrc, hF⟩ := List.mem_filterMap.mp h
  obtain ⟨v', hs, hv', hx⟩ := collectSpot_eq_some.mp hF
  have h1 : r = rc.1 := congrArg (fun y => y.1) hx
  have h2 : c = rc.2 := congrArg (fun y => y.2.1) hx
  have h3 : v = v' := congrArg (fun y => y.2.2) hx
  subst h1; subst h2; subst h3
  have hmem : (rc.1, rc.2) ∈ indicesRM b := by
    have heta : rc = (rc.1, rc.2) := rfl
    rw [← heta]; exact hrc
  obtain ⟨hb1, hb2⟩ := mem_indicesRM.mp hmem
  exact ⟨hb1, hb2, hs, hv'⟩

theorem playerCardsOf_pair_ne {b : Board} {p : String}
    {r1 c1 r2 c2 : Nat} {v1 v2 : String}
    (h : playerCardsOf b p = [(r1, c1, v1), (r2, c2, v2)]) :
    (r1, c1) ≠ (r2, c2) := by
  have := filterMap_eq_pair_pos_ne (indicesRM_nodup b)
    (fun a x hx => by
      obtain ⟨v, _, _, hxeq⟩ := collectSpot_eq_some.mp hx
      rw [hxeq])
    (h : (indicesRM b).filterMap (collectSpot b p) = _)
  exact this

theorem findFirstCard_eq_some {b : Board} {p : String} {row col : Nat}
    {x : Nat × Nat × String} (h : findFirstCard b p row col = some x) :
    ¬(x.1 = row ∧ x.2.1 = col) ∧
      getSpot b x.1 x.2.1 = some ⟨some x.2.2, true, some p⟩ ∧
      x.2.2.isEmpty = false := by
  rw [findFirstCard] at h
  obtain ⟨rc, hrc, hF⟩ := exists_of_findSome? h
  split at hF
  · cases hF
  · rename_i hskip
    obtain ⟨v, hs, hv, hxeq⟩ := collectSpot_eq_some.mp hF
    subst hxeq
    exact ⟨hskip, hs, hv⟩

/-! ### How cleanup evolves individual spots -/

theorem cleanupMatched_spot (p : String) (b : Board) (r c : Nat) :
    getSpot (cleanupMatched p b).1 r c = getSpot b r c ∨
    (∃ s, getSpot b r c = some s ∧ s.controller = some p ∧
      getSpot (cleanupMatched p b).1 r c = some ⟨none, false, none⟩) := by
  rw [cleanupMatched]
  split
  · rename_i r1 c1 v1 r2 c2 v2 hlist
    split
    · rename_i hv
      have hne : (r1, c1) ≠ (r2, c2) := playerCardsOf_pair_ne hlist
      have hm1 : (r1, c1, v1) ∈ playerCardsOf b p := by rw [hlist]; simp
      have hm2 : (r2, c2, v2) ∈ playerCardsOf b p := by rw [hlist]; simp
      obtain ⟨_, _, hs1, _⟩ := mem_playerCardsOf hm1
      obtain ⟨_, _, hs2, _⟩ := mem_playerCardsOf hm2
      dsimp only
      by_cases he1 : (r, c) = (r1, c1)
      · right
        have hr := congrArg Prod.fst he1
        have hc := congrArg Prod.snd he1
        dsimp only at hr hc
        subst hr; subst hc
        refine ⟨_, hs1, rfl, ?_⟩
        rw [getSpot_notifyCardWaiters, getSpot_notifyCardWaiters,
          getSpot_modifySpot_ne (Ne.symm hne), getSpot_modifySpot_self, hs1]
        rfl
      · by_cases he2 : (r, c) = (r2, c2)
        · right
          have hr := congrArg Prod.fst he2
          have hc := congrArg Prod.snd he2
          dsimp only at hr hc
          subst hr; subst hc
          refine ⟨_, hs2, rfl, ?_⟩
          rw [getSpot_notifyCardWaiters, getSpot_notifyCardWaiters,
            getSpot_modifySpot_self, getSpot_modifySpot_ne (Ne.symm he1), hs2]
          rfl
        · left
          rw [getSpot_notifyCardWaiters, getSpot_notifyCardWaiters,
            getSpot_modifySpot_ne (Ne.symm he2), getSpot_modifySpot_ne (Ne.symm he1)]
    · left; rfl
  · left; rfl

theorem flipDownStep_spot (acc : Board × Bool) (rc : Nat × Nat) (r c : Nat) :
    getSpot (flipDownStep acc rc).1 r c = getSpot acc.1 r c ∨
    (∃ s, getSpot acc.1 r c = some s ∧ s.controller = none ∧
      getSpot (flipDownStep acc rc).1 r c = some { s with faceUp := false }) := by
  rw [flipDownStep]
  split
  · rename_i s0 hs0
    split
    · rename_i hguard
      dsimp only
      by_cases he : (rc.1, rc.2) = (r, c)
      · right
        have hr := congrArg Prod.fst he
        have hc := congrArg Prod.snd he
        dsimp only at hr hc
        rw [hr, hc] at hs0 ⊢
        refine ⟨s0, hs0, ?_, ?_⟩
        · have h3 := hguard.2.2
          cases hctl : s0.controller with
          | none => rfl
          | some q => rw [hctl] at h3; simp at h3
        · rw [getSpot_notifyCardWaiters, getSpot_modifySpot_self, hs0]
          rfl
      · left
        rw [getSpot_notifyCardWaiters, getSpot_modifySpot_ne he]
    · left; rfl
  · left; rfl

theorem flipDownStep_spot_ne {acc : Board × Bool} {rc0 : Nat × Nat} {r c : Nat}
    (h : (rc0.1, rc0.2) ≠ (r, c)) :
    getSpot (flipDownStep acc rc0).1 r c = getSpot acc.1 r c := by
  rw [flipDownStep]
  split
  · split
    · dsimp only
      rw [getSpot_notifyCardWaiters, getSpot_modifySpot_ne h]
    · rfl
  · rfl

theorem flipDownFold_spot :
    ∀ (l : List (Nat × Nat)) (acc : Board × Bool) (r c : Nat),
    getSpot (l.foldl flipDownStep acc).1 r c = getSpot acc.1 r c ∨
    (∃ s, getSpot acc.1 r c = some s ∧ s.controller = none ∧
      getSpot (l.foldl flipDownStep acc).1 r c = some { s with faceUp := false }) := by
  intro l
  induction l with
  | nil => intro acc r c; left; rfl
  | cons a l ih =>
      intro acc r c
      rw [List.foldl_cons]
      rcases flipDownStep_spot acc a r c with h1 | ⟨s, hs, hctl, h1⟩
      · rcases ih (flipDownStep acc a) r c with h2 | ⟨s, hs2, hctl2, h2⟩
        · left; rw [h2, h1]
        · right; exact ⟨s, h1 ▸ hs2, hctl2, h2⟩
      · rcases ih (flipDownStep acc a) r c with h2 | ⟨s2, hs2, hctl2, h2⟩
        · right; exact ⟨s, hs, hctl, by rw [h2, h1]⟩
        · right
          rw [h1] at hs2
          cases hs2
          exact ⟨s, hs, hctl, by rw [h2]⟩

theorem flipDownFold_flips :
    ∀ (l : List (Nat × Nat)) (acc : Board × Bool) {r c : Nat} {s : Spot},
    (r, c) ∈ l → getSpot acc.1 r c = some s → s.card.isSome = true →
    s.faceUp = true → s.controller = none →
    getSpot (l.foldl flipDownStep acc).1 r c = some { s with faceUp := false } := by
  intro l
  induction l with
  | nil => intro acc r c s hmem; cases hmem
  | cons a l ih =>
      intro acc r c s hmem hs hcard hfu hctl
      rw [List.foldl_cons]
      by_cases he : (r, c) = a
      · have hstep : getSpot (flipDownStep acc a).1 r c = some { s with faceUp := false } := by
          rw [flipDownStep]
          have hsa : getSpot acc.1 a.1 a.2 = some s := by rw [← he]; exact hs
          rw [hsa]
          dsimp only
          rw [if_pos ⟨hcard, hfu, by rw [hctl]; rfl⟩]
          dsimp only
          have he1 : a.1 = r := by rw [← he]
          have he2 : a.2 = c := by rw [← he]
          rw [he1, he2, getSpot_notifyCardWaiters, getSpot_modifySpot_self, hs]
          rfl
        rcases flipDownFold_spot l (flipDownStep acc a) r c with h2 | ⟨s2, hs2, hctl2, h2⟩
        · rw [h2, hstep]
        · rw [hstep] at hs2
          cases hs2
          rw [h2]
      · have hstep : getSpot (flipDownStep acc a).1 r c = getSpot acc.1 r c := by
          apply flipDownStep_spot_ne
          intro hcontra
          exact he (by rw [← hcontra])
        have hmem' : (r, c) ∈ l := by
          cases hmem with
          | head => exact absurd rfl he
          | tail _ hm => exact hm
        exact ih (flipDownStep acc a) hmem' (hstep ▸ hs) hcard hfu hctl

theorem flipDownFold_flips' (l : List (Nat × Nat)) (acc : Board × Bool)
    {r c : Nat} {ca ct : Option String}
    (hmem : (r, c) ∈ l) (hs : getSpot acc.1 r c = some ⟨ca, true, ct⟩)
    (hcard : ca.isSome = true) (hctl : ct = none) :
    getSpot (l.foldl flipDownStep acc).1 r c = some ⟨ca, false, ct⟩ := by
  have h := flipDownFold_flips l acc hmem hs hcard rfl hctl
  exact h

theorem cleanup_spot (p : String) (b : Board) (r c : Nat) :
    getSpot (cleanupCompletedTurns p b).1 r c = getSpot b r c ∨
    (∃ s, getSpot b r c = some s ∧ s.controller = none ∧
      getSpot (cleanupCompletedTurns p b).1 r c = some { s with faceUp := false }) ∨
    (∃ s, getSpot b r c = some s ∧ s.controller = some p ∧
      getSpot (cleanupCompletedTurns p b).1 r c = some ⟨none, false, none⟩) := by
  rw [cleanupCompletedTurns]
  rcases cleanupMatched_spot p b r c with h1 | ⟨s, hs, hctl, h1⟩
  · rcases flipDownFold_spot (indicesRM b) (cleanupMatched p b) r c with
      h2 | ⟨s, hs2, hctl2, h2⟩
    · left; rw [h2, h1]
    · right; left; exact ⟨s, h1 ▸ hs2, hctl2, h2⟩
  · rcases flipDownFold_spot (indicesRM b) (cleanupMatched p b) r c with
      h2 | ⟨s2, hs2, hctl2, h2⟩
    · right; right; exact ⟨s, hs, hctl, by rw [h2, h1]⟩
    · right; right
      rw [h1] at hs2
      cases hs2
      exact ⟨s, hs, hctl, by rw [h2]⟩

theorem cleanup_spot_other {p q : String} {b : Board} {r c : Nat} {s : Spot}
    (hs : getSpot b r c = some s) (hctl : s.controller = some q) (hqp : q ≠ p) :
    getSpot (cleanupCompletedTurns p b).1 r c = some s := by
  rcases cleanup_spot p b r c with h | ⟨s', hs', hctl', _⟩ | ⟨s', hs', hctl', _⟩
  · rw [h, hs]
  · rw [hs] at hs'; cases hs'; rw [hctl] at hctl'; cases hctl'
  · rw [hs] at hs'; cases hs'
    rw [hctl] at hctl'
    exact absurd (Option.some.inj hctl') hqp

/-! ### Dimension and shape preservation -/

theorem length_listModify (f : α → α) (n : Nat) :
    ∀ l : List α, (listModify f n l).length = l.length := by
  induction n with
  | zero => intro l; cases l <;> rfl
  | succ n ih =>
      intro l
      cases l with
      | nil => rfl
      | cons a as => simp [listModify, ih as]

theorem mem_listModify {f : α → α} {n : Nat} {l : List α} {a : α}
    (h : a ∈ listModify f n l) : a ∈ l ∨ ∃ x ∈ l, a = f x := by
  induction l generalizing n with
  | nil => cases n <;> cases h
  | cons x xs ih =>
      cases n with
      | zero =>
          rw [listModify] at h
          rcases List.mem_cons.mp h with h1 | hm
          · exact Or.inr ⟨x, List.mem_cons_self x xs, h1⟩
          · exact Or.inl (List.mem_cons_of_mem x hm)
      | succ n =>
          rw [listModify] at h
          rcases List.mem_cons.mp h with h1 | hm
          · exact Or.inl (by rw [h1]; exact List.mem_cons_self x xs)
          · rcases ih hm with h1 | ⟨y, hy, hfy⟩
            · exact Or.inl (List.mem_cons_of_mem x h1)
            · exact Or.inr ⟨y, List.mem_cons_of_mem x hy, hfy⟩

theorem dims_modifySpot (b : Board) (r c : Nat) (f : Spot → Spot) :
    (modifySpot b r c f).rows = b.rows ∧ (modifySpot b r c f).cols = b.cols :=
  ⟨rfl, rfl⟩

theorem shapeOk_modifySpot {b : Board} (r c : Nat) (f : Spot → Spot)
    (h : shapeOk b) : shapeOk (modifySpot b r c f) := by
  obtain ⟨h1, h2⟩ := h
  refine ⟨?_, ?_⟩
  · show (listModify (listModify f c) r b.grid).length = b.rows
    rw [length_listModify]; exact h1
  · intro row hrow
    rcases mem_listModify hrow with hm | ⟨row0, hm0, hfeq⟩
    · exact h2 row hm
    · show row.length = b.cols
      rw [hfeq, length_listModify]
      exact h2 row0 hm0

theorem dims_cleanupMatched (p : String) (b : Board) :
    (cleanupMatched p b).1.rows = b.rows ∧ (cleanupMatched p b).1.cols = b.cols := by
  rw [cleanupMatched]
  split
  · split
    · exact ⟨rfl, rfl⟩
    · exact ⟨rfl, rfl⟩
  · exact ⟨rfl, rfl⟩

theorem shapeOk_cleanupMatched {p : String} {b : Board} (h : shapeOk b) :
    shapeOk (cleanupMatched p b).1 := by
  rw [cleanupMatched]
  split
  · split
    · exact shapeOk_modifySpot _ _ _ (shapeOk_modifySpot _ _ _ h)
    · exact h
  · exact h

theorem dims_flipDownStep (acc : Board × Bool) (rc : Nat × Nat) :
    (flipDownStep acc rc).1.rows = acc.1.rows ∧
    (flipDownStep acc rc).1.cols = acc.1.cols := by
  rw [flipDownStep]
  split
  · split
    · exact ⟨rfl, rfl⟩
    · exact ⟨rfl, rfl⟩
  · exact ⟨rfl, rfl⟩

theorem shapeOk_flipDownStep {acc : Board × Bool} {rc : Nat × Nat}
    (h : shapeOk acc.1) : shapeOk (flipDownStep acc rc).1 := by
  rw [flipDownStep]
  split
  · split
    · have h2 := shapeOk_modifySpot rc.1 rc.2
        (fun sp => { sp with faceUp := false }) h
      exact ⟨h2.1, h2.2⟩
    · exact h
  · exact h

theorem dims_flipDownFold :
    ∀ (l : List (Nat × Nat)) (acc : Board × Bool),
    (l.foldl flipDownStep acc).1.rows = acc.1.rows ∧
    (l.foldl flipDownStep acc).1.cols = acc.1.cols := by
  intro l
  induction l with
  | nil => intro acc; exact ⟨rfl, rfl⟩
  | cons a l ih =>
      intro acc
      rw [List.foldl_cons]
      have h1 := ih (flipDownStep acc a)
      have h2 := dims_flipDownStep acc a
      exact ⟨h1.1.trans h2.1, h1.2.trans h2.2⟩

theorem shapeOk_flipDownFold :
    ∀ (l : List (Nat × Nat)) {acc : Board × Bool}, shapeOk acc.1 →
    shapeOk (l.foldl flipDownStep acc).1 := by
  intro l
  induction l with
  | nil => intro acc h; exact h
  | cons a l ih =>
      intro acc h
      rw [List.foldl_cons]
      exact ih (shapeOk_flipDownStep h)

theorem dims_cleanup (p : String) (b : Board) :
    (cleanupCompletedTurns p b).1.rows = b.rows ∧
    (cleanupCompletedTurns p b).1.cols = b.cols := by
  rw [cleanupCompletedTurns]
  have h1 := dims_flipDownFold (indicesRM b) (cleanupMatched p b)
  have h2 := dims_cleanupMatched p b
  exact ⟨h1.1.trans h2.1, h1.2.trans h2.2⟩

theorem shapeOk_cleanup {p : String} {b : Board} (h : shapeOk b) :
    shapeOk (cleanupCompletedTurns p b).1 := by
  rw [cleanupCompletedTurns]
  exact shapeOk_flipDownFold _ (shapeOk_cleanupMatched h)

theorem dims_cleanedNotified (p : String) (b : Board) :
    (cleanedNotified p b).rows = b.rows ∧ (cleanedNotified p b).cols = b.cols := by
  rw [cleanedNotified]
  split
  · exact dims_cleanup p b
  · exact dims_cleanup p b

theorem shapeOk_cleanedNotified {p : String} {b : Board} (h : shapeOk b) :
    shapeOk (cleanedNotified p b) := by
  rw [cleanedNotified]
  split
  · exact shapeOk_cleanup h
  · exact shapeOk_cleanup h

theorem dims_stateOf_flipLocked (p : String) (row col tok : Nat) (b : Board) :
    (stateOf (flipLocked p row col tok b)).rows = b.rows ∧
    (stateOf (flipLocked p row col tok b)).cols = b.cols := by
  simp only [flipLocked]
  split
  · exact ⟨rfl, rfl⟩
  · split
    · exact ⟨rfl, rfl⟩
    · split
      · exact ⟨rfl, rfl⟩
      · split
        · exact ⟨rfl, rfl⟩
        · split
          · exact ⟨rfl, rfl⟩
          · split
            · exact ⟨rfl, rfl⟩
            · split
              · exact ⟨rfl, rfl⟩
              · simp only [stateOf]
                split
                · split
                  · split
                    · exact ⟨rfl, rfl⟩
                    · exact ⟨rfl, rfl⟩
                  · exact ⟨rfl, rfl⟩
                · exact ⟨rfl, rfl⟩

theorem shapeOk_stateOf_flipLocked {p : String} {row col tok : Nat} {b : Board}
    (h : shapeOk b) : shapeOk (stateOf (flipLocked p row col tok b)) := by
  simp only [flipLocked]
  split
  · exact h
  · split
    · exact h
    · split
      · exact h
      · split
        · exact h
        · split
          · exact h
          · split
            · exact h
            · split
              · exact h
              · simp only [stateOf]
                split
                · split
                  · split
                    · exact shapeOk_modifySpot _ _ _
                        (shapeOk_modifySpot _ _ _ (shapeOk_modifySpot _ _ _ h))
                    · exact shapeOk_modifySpot _ _ _ h
                  · exact shapeOk_modifySpot _ _ _ h
                · exact shapeOk_modifySpot _ _ _ h

theorem dims_stateOf_flipCard (p : String) (row col tok : Nat) (b : Board) :
    (stateOf (flipCard p row col tok b)).rows = b.rows ∧
    (stateOf (flipCard p row col tok b)).cols = b.cols := by
  rw [flipCard]
  have h1 := dims_stateOf_flipLocked p row col tok (cleanedNotified p b)
  have h2 := dims_cleanedNotified p b
  exact ⟨h1.1.trans h2.1, h1.2.trans h2.2⟩

theorem shapeOk_stateOf_flipCard {p : String} {row col tok : Nat} {b : Board}
    (h : shapeOk b) : shapeOk (stateOf (flipCard p row col tok b)) := by
  rw [flipCard]
  exact shapeOk_stateOf_flipLocked (shapeOk_cleanedNotified h)

theorem shapeOk_applyTransform {m : List (String × String)} {b : Board}
    (h : shapeOk b) : shapeOk (applyTransform m b) := by
  obtain ⟨h1, h2⟩ := h
  refine ⟨?_, ?_⟩
  · show (b.grid.map _).length = b.rows
    rw [List.length_map]; exact h1
  · intro row hrow
    obtain ⟨row0, hm0, rfl⟩ := List.mem_map.mp hrow
    show (row0.map _).length = b.cols
    rw [List.length_map]
    exact h2 row0 hm0

theorem indicesRM_congr {b' b : Board} (h1 : b'.rows = b.rows)
    (h2 : b'.cols = b.cols) : indicesRM b' = indicesRM b := by
  rw [indicesRM, indicesRM, h1, h2]

/-! ### Controlled-count facts -/

theorem countSpot_of_collectSpot {b : Board} {p : String} {rc : Nat × Nat}
    (h : (collectSpot b p rc).isSome = true) : countSpot b p rc = true := by
  rw [Option.isSome_iff_exists] at h
  obtain ⟨x, hx⟩ := h
  obtain ⟨v, hs, _, _⟩ := collectSpot_eq_some.mp hx
  rw [countSpot, hs]
  simp

theorem length_playerCardsOf_le (b : Board) (p : String) :
    (playerCardsOf b p).length ≤ controlledCount b p := by
  rw [playerCardsOf, controlledCount]
  exact length_filterMap_le_filter (fun rc _ h => countSpot_of_collectSpot h)

theorem cleanupMatched_of_le_one {p : String} {b : Board}
    (h : (playerCardsOf b p).length ≤ 1) : cleanupMatched p b = (b, false) := by
  rw [cleanupMatched]
  split
  · rename_i hlist
    rw [hlist] at h
    simp at h
  · rfl

theorem cleanup_of_count_le_one {p : String} {b : Board}
    (h : controlledCount b p ≤ 1) :
    cleanupCompletedTurns p b = (indicesRM b).foldl flipDownStep (b, false) := by
  rw [cleanupCompletedTurns,
    cleanupMatched_of_le_one (le_trans (length_playerCardsOf_le b p) h)]

theorem countSpot_flipDownFold (l : List (Nat × Nat)) (acc : Board × Bool)
    (p : String) (rc : Nat × Nat) :
    countSpot (l.foldl flipDownStep acc).1 p rc = countSpot acc.1 p rc := by
  rcases flipDownFold_spot l acc rc.1 rc.2 with h | ⟨s, hs, hctl, h⟩
  · rw [countSpot, countSpot, h]
  · rw [countSpot, countSpot, h, hs]
    simp [hctl]

theorem controlledCount_flipDownFold (l : List (Nat × Nat)) (acc : Board × Bool)
    (p : String) (hr : (l.foldl flipDownStep acc).1.rows = acc.1.rows)
    (hc : (l.foldl flipDownStep acc).1.cols = acc.1.cols) :
    controlledCount (l.foldl flipDownStep acc).1 p = controlledCount acc.1 p := by
  rw [controlledCount, controlledCount, indicesRM_congr hr hc]
  apply congrArg List.length
  exact List.filter_congr (fun rc _ => countSpot_flipDownFold l acc p rc)

theorem controlledCount_cleanup_of_le_one {p : String} {b : Board}
    (h : controlledCount b p ≤ 1) :
    controlledCount (cleanupCompletedTurns p b).1 p = controlledCount b p := by
  rw [cleanup_of_count_le_one h]
  exact controlledCount_flipDownFold (indicesRM b) (b, false) p
    (dims_flipDownFold _ _).1 (dims_flipDownFold _ _).2

theorem flipDownFold_spot_ctrl_some {l : List (Nat × Nat)} {acc : Board × Bool}
    {r c : Nat} {s : Spot} (hs : getSpot acc.1 r c = some s)
    (hctl : s.controller.isSome = true) :
    getSpot (l.foldl flipDownStep acc).1 r c = some s := by
  rcases flipDownFold_spot l acc r c with h | ⟨s', hs', hctl', h⟩
  · rw [h, hs]
  · rw [hs] at hs'
    cases hs'
    rw [hctl'] at hctl
    cases hctl

theorem collectSpot_flipDownFold_none {l : List (Nat × Nat)} {acc : Board × Bool}
    {p : String} {rc : Nat × Nat} (h : collectSpot acc.1 p rc = none) :
    collectSpot (l.foldl flipDownStep acc).1 p rc = none := by
  rcases flipDownFold_spot l acc rc.1 rc.2 with hh | ⟨s, hs, hctl, hh⟩
  · rw [collectSpot] at h ⊢
    rw [hh]
    exact h
  · exact collectSpot_eq_none hh (Or.inr (Or.inl rfl))

theorem getSpot_lt {b : Board} {r c : Nat} {s : Spot} (hshape : shapeOk b)
    (h : getSpot b r c = some s) : r < b.rows ∧ c < b.cols := by
  rw [getSpot] at h
  cases hrow : b.grid.get? r with
  | none => rw [hrow] at h; cases h
  | some row =>
      rw [hrow] at h
      have h1 : r < b.grid.length := by
        by_contra hcon
        rw [List.get?_eq_none.mpr (Nat.le_of_not_lt hcon)] at hrow
        cases hrow
      have hcr : row.get? c = some s := h
      have h2 : c < row.length := by
        by_contra hcon
        rw [List.get?_eq_none.mpr (Nat.le_of_not_lt hcon)] at hcr
        cases hcr
      exact ⟨hshape.1 ▸ h1, (hshape.2 row (List.get?_mem hrow)) ▸ h2⟩

/-! ### How a whole flipCard pass evolves individual spots -/

theorem pair_ne_of_not_and {a b r c : Nat} (h : ¬(a = r ∧ b = c)) :
    (a, b) ≠ (r, c) :=
  fun hc => h ⟨congrArg Prod.fst hc, congrArg Prod.snd hc⟩

/-- Relation between the spot at `(r, c)` before and after a
state-mutating pass by player `q`: either untouched, or it was
mutated, in which case its controller was in `{none, q}` both before
and after (no pass ever touches a cell currently controlled by a
different player, and never hands a cell to a different player). -/
def SpotEvol (q : String) (pre post : Option Spot) : Prop :=
  post = pre ∨
    (∃ s s', pre = some s ∧ (s.controller = none ∨ s.controller = some q) ∧
      post = some s' ∧ (s'.controller = none ∨ s'.controller = some q))

theorem spotEvol_trans {q : String} {x y z : Option Spot}
    (h1 : SpotEvol q x y) (h2 : SpotEvol q y z) : SpotEvol q x z := by
  rcases h2 with h2 | ⟨s2, s2', hy, hc2, hz, hc2'⟩
  · rw [h2]; exact h1
  · rcases h1 with h1 | ⟨s1, s1', hx, hc1, hy1, hc1'⟩
    · rw [h1] at hy
      exact Or.inr ⟨s2, s2', hy, hc2, hz, hc2'⟩
    · rw [hy1] at hy
      cases hy
      exact Or.inr ⟨s1, s2', hx, hc1, hz, hc2'⟩

theorem cleanup_spotEvol (q : String) (b : Board) (r c : Nat) :
    SpotEvol q (getSpot b r c) (getSpot (cleanupCompletedTurns q b).1 r c) := by
  rcases cleanup_spot q b r c with h | ⟨s, hs, hctl, h⟩ | ⟨s, hs, hctl, h⟩
  · exact Or.inl h
  · exact Or.inr ⟨s, { s with faceUp := false }, hs, Or.inl hctl, h, Or.inl hctl⟩
  · exact Or.inr ⟨s, ⟨none, false, none⟩, hs, Or.inr hctl, h, Or.inl rfl⟩

theorem cleanedNotified_spotEvol (q : String) (b : Board) (r c : Nat) :
    SpotEvol q (getSpot b r c) (getSpot (cleanedNotified q b) r c) := by
  rw [cleanedNotified]
  split
  · rw [getSpot_notifyWatchers]
    exact cleanup_spotEvol q b r c
  · exact cleanup_spotEvol q b r c

theorem flipLocked_spotEvol (q : String) (row col tok : Nat) (b : Board)
    (r c : Nat) :
    SpotEvol q (getSpot b r c) (getSpot (stateOf (flipLocked q row col tok b)) r c) := by
  simp only [flipLocked]
  split
  · exact Or.inl rfl
  · split
    · exact Or.inl rfl
    · rename_i spot hspot
      split
      · exact Or.inl rfl
      · split
        · exact Or.inl rfl
        · split
          · exact Or.inl rfl
          · split
            · exact Or.inl rfl
            · split
              · exact Or.inl rfl
              · rename_i hnb hncard hn2 hown hsec hwait
                simp only [stateOf]
                rw [getSpot_notifyWatchers]
                have htgt : spot.controller = none ∨ spot.controller = some q := by
                  cases hctl : spot.controller with
                  | none => exact Or.inl rfl
                  | some x =>
                      by_cases hxq : x = q
                      · exact Or.inr (by rw [hxq])
                      · exfalso
                        by_cases hcnt : controlledCount b q = 1
                        · exact hsec ⟨hcnt, by rw [hctl]; rfl⟩
                        · refine hwait ⟨hcnt, by rw [hctl]; rfl, ?_⟩
                          rw [hctl]
                          intro hh
                          exact hxq (Option.some.inj hh)
                have hb1tgt : getSpot (modifySpot b row col
                    fun s => { s with faceUp := true, controller := some q }) row col =
                    some { spot with faceUp := true, controller := some q } := by
                  rw [getSpot_modifySpot_self, hspot]
                  rfl
                have hb1ne : ∀ rr cc, (row, col) ≠ (rr, cc) →
                    getSpot (modifySpot b row col
                      fun s => { s with faceUp := true, controller := some q }) rr cc =
                    getSpot b rr cc := fun rr cc hne => getSpot_modifySpot_ne hne
                split
                · split
                  · rename_i fc hfc
                    split
                    · -- mismatch: controllers of target and first card cleared
                      obtain ⟨hskip, hfs, _⟩ := findFirstCard_eq_some hfc
                      have hfcne : (fc.1, fc.2.1) ≠ (row, col) := pair_ne_of_not_and hskip
                      have hfb : getSpot b fc.1 fc.2.1 =
                          some ⟨some fc.2.2, true, some q⟩ := by
                        rw [← hb1ne fc.1 fc.2.1 (Ne.symm hfcne)]
                        exact hfs
                      by_cases hrc1 : (fc.1, fc.2.1) = (r, c)
                      · have hr := congrArg Prod.fst hrc1
                        have hc := congrArg Prod.snd hrc1
                        dsimp only at hr hc
                        subst hr; subst hc
                        right
                        refine ⟨⟨some fc.2.2, true, some q⟩, ⟨some fc.2.2, true, none⟩,
                          hfb, Or.inr rfl, ?_, Or.inl rfl⟩
                        rw [getSpot_modifySpot_self,
                          getSpot_modifySpot_ne (Ne.symm hfcne), hfs]
                        rfl
                      · by_cases hrc2 : (row, col) = (r, c)
                        · have hr := congrArg Prod.fst hrc2
                          have hc := congrArg Prod.snd hrc2
                          dsimp only at hr hc
                          subst hr; subst hc
                          right
                          refine ⟨spot, { spot with faceUp := true, controller := none },
                            hspot, htgt, ?_, Or.inl rfl⟩
                          rw [getSpot_modifySpot_ne hrc1, getSpot_modifySpot_self, hb1tgt]
                          rfl
                        · left
                          rw [getSpot_modifySpot_ne hrc1, getSpot_modifySpot_ne hrc2,
                            hb1ne r c hrc2]
                    · -- values matched: both stay under q's control
                      by_cases hrc2 : (row, col) = (r, c)
                      · have hr := congrArg Prod.fst hrc2
                        have hc := congrArg Prod.snd hrc2
                        dsimp only at hr hc
                        subst hr; subst hc
                        right
                        exact ⟨spot, { spot with faceUp := true, controller := some q },
                          hspot, htgt, hb1tgt, Or.inr rfl⟩
                      · left
                        exact hb1ne r c hrc2
                  · by_cases hrc2 : (row, col) = (r, c)
                    · have hr := congrArg Prod.fst hrc2
                      have hc := congrArg Prod.snd hrc2
                      dsimp only at hr hc
                      subst hr; subst hc
                      right
                      exact ⟨spot, { spot with faceUp := true, controller := some q },
                        hspot, htgt, hb1tgt, Or.inr rfl⟩
                    · left
                      exact hb1ne r c hrc2
                · by_cases hrc2 : (row, col) = (r, c)
                  · have hr := congrArg Prod.fst hrc2
                    have hc := congrArg Prod.snd hrc2
                    dsimp only at hr hc
                    subst hr; subst hc
                    right
                    exact ⟨spot, { spot with faceUp := true, controller := some q },
                      hspot, htgt, hb1tgt, Or.inr rfl⟩
                  · left
                    exact hb1ne r c hrc2

theorem flipCard_spotEvol (q : String) (row col tok : Nat) (b : Board)
    (r c : Nat) :
    SpotEvol q (getSpot b r c) (getSpot (stateOf (flipCard q row col tok b)) r c) := by
  rw [flipCard]
  exact spotEvol_trans (cleanedNotified_spotEvol q b r c)
    (flipLocked_spotEvol q row col tok (cleanedNotified q b) r c)

/-! ### How mapCards evolves individual spots, and held pairs -/

theorem getSpot_applyTransform (m : List (String × String)) (b : Board)
    (r c : Nat) :
    getSpot (applyTransform m b) r c = (getSpot b r c).map (applySpotT m) := by
  rw [getSpot, getSpot, applyTransform]
  show ((b.grid.map _).get? r).bind _ = _
  rw [List.get?_map]
  cases b.grid.get? r with
  | none => rfl
  | some row =>
      show (row.map (applySpotT m)).get? c = _
      rw [List.get?_map]
      rfl

theorem collectSpot_congr {b' b : Board} {p : String} {rc : Nat × Nat}
    (h : getSpot b' rc.1 rc.2 = getSpot b rc.1 rc.2) :
    collectSpot b' p rc = collectSpot b p rc := by
  rw [collectSpot, collectSpot, h]

theorem collectSpot_spotEvol_eq {b b' : Board} {p q : String} {rc : Nat × Nat}
    (hqp : q ≠ p)
    (hev : SpotEvol q (getSpot b rc.1 rc.2) (getSpot b' rc.1 rc.2)) :
    collectSpot b' p rc = collectSpot b p rc := by
  rcases hev with h | ⟨s, s', hpre, hcs, hpost, hcs'⟩
  · exact collectSpot_congr h
  · have hnp : ∀ (t : Spot), t.controller = none ∨ t.controller = some q →
        t.controller ≠ some p := by
      rintro t (h | h) hc
      · rw [h] at hc; cases hc
      · rw [h] at hc; exact hqp (Option.some.inj hc)
    rw [collectSpot_eq_none hpre (Or.inl (hnp s hcs)),
      collectSpot_eq_none hpost (Or.inl (hnp s' hcs'))]

theorem playerCardsOf_flipCard_other {b : Board} {p q : String}
    (hqp : q ≠ p) (row col tok : Nat) :
    playerCardsOf (stateOf (flipCard q row col tok b)) p = playerCardsOf b p := by
  rw [playerCardsOf, playerCardsOf]
  have hdims := dims_stateOf_flipCard q row col tok b
  rw [indicesRM_congr hdims.1 hdims.2]
  exact List.filterMap_congr fun rc _ =>
    collectSpot_spotEvol_eq hqp (flipCard_spotEvol q row col tok b rc.1 rc.2)

theorem collectSpot_applyTransform {b : Board} {p : String}
    {m : List (String × String)} (rc : Nat × Nat)
    (hrep : repOk b = true) (hm : ∀ kv ∈ m, isValidCard kv.2 = true) :
    collectSpot (applyTransform m b) p rc =
      (collectSpot b p rc).map fun x => (x.1, x.2.1, remap m x.2.2) := by
  have hg := getSpot_applyTransform m b rc.1 rc.2
  cases hs : getSpot b rc.1 rc.2 with
  | none =>
      rw [collectSpot, collectSpot, hs, hg, hs]
      rfl
  | some s =>
      have hsOk := repOk_getSpot hrep hs
      rw [collectSpot, collectSpot, hg, hs, Option.map_some']
      obtain ⟨card, fu, ctrl⟩ := s
      cases card with
      | none => cases fu <;> rfl
      | some v =>
          have hvOk : isValidCard v = true := by
            rw [spotOk, Bool.and_eq_true] at hsOk
            have := hsOk.2
            rw [cardOk] at this
            exact this
          have hvne : v.isEmpty = false := by
            rw [isValidCard, Bool.and_eq_true] at hvOk
            have := hvOk.1
            cases hve : v.isEmpty
            · rfl
            · rw [hve] at this; cases this
          cases fu with
          | false =>
              simp only [applySpotT]
              by_cases hls : (List.lookup v m).isSome = true
              · rw [if_pos hls]
                rfl
              · rw [if_neg hls]
                rfl
          | true =>
              simp only [applySpotT]
              by_cases hls : (List.lookup v m).isSome = true
              · rw [if_pos hls]
                show (if ctrl = some p ∧ ¬(remap m v).isEmpty then
                    some (rc.1, rc.2, remap m v) else none) =
                  Option.map (fun x => (x.1, x.2.1, remap m x.2.2))
                    (if ctrl = some p ∧ ¬v.isEmpty then some (rc.1, rc.2, v) else none)
                rw [Option.isSome_iff_exists] at hls
                obtain ⟨nv, hnv⟩ := hls
                obtain ⟨k, hk⟩ := mem_of_lookup hnv
                have hnvne : (remap m v).isEmpty = false := by
                  have hval := hm (k, nv) hk
                  rw [remap, hnv]
                  rw [isValidCard, Bool.and_eq_true] at hval
                  have h1 := hval.1
                  cases hve : nv.isEmpty
                  · rfl
                  · rw [hve] at h1; cases h1
                by_cases hcp : ctrl = some p
                · rw [if_pos ⟨hcp, by rw [hnvne]; exact Bool.false_ne_true⟩,
                    if_pos ⟨hcp, by rw [hvne]; exact Bool.false_ne_true⟩]
                  rfl
                · rw [if_neg (fun hh => hcp hh.1), if_neg (fun hh => hcp hh.1)]
                  rfl
              · rw [if_neg hls]
                show (if ctrl = some p ∧ ¬v.isEmpty then
                    some (rc.1, rc.2, v) else none) =
                  Option.map (fun x => (x.1, x.2.1, remap m x.2.2))
                    (if ctrl = some p ∧ ¬v.isEmpty then some (rc.1, rc.2, v) else none)
                have hrv : remap m v = v := by
                  rw [remap]
                  cases hl : m.lookup v with
                  | none => rfl
                  | some nv => rw [hl] at hls; simp at hls
                by_cases hcp : ctrl = some p ∧ ¬v.isEmpty
                · rw [if_pos hcp, Option.map_some', hrv]
                · rw [if_neg hcp]
                  rfl

theorem playerCardsOf_applyTransform {b : Board} {p : String}
    {m : List (String × String)}
    (hrep : repOk b = true) (hm : ∀ kv ∈ m, isValidCard kv.2 = true) :
    playerCardsOf (applyTransform m b) p =
      (playerCardsOf b p).map fun x => (x.1, x.2.1, remap m x.2.2) := by
  rw [playerCardsOf, playerCardsOf]
  have hidx : indicesRM (applyTransform m b) = indicesRM b := rfl
  rw [hidx, List.map_filterMap]
  exact List.filterMap_congr fun rc _ => collectSpot_applyTransform rc hrep hm

theorem playerCardsOf_notifyWatchers (b : Board) (p : String) :
    playerCardsOf (notifyWatchers b) p = playerCardsOf b p := rfl

theorem playerCardsOf_watchRegister (b : Board) (p : String) (tok : Nat) :
    playerCardsOf (watchRegister tok b) p = playerCardsOf b p := rfl

theorem heldPair_applyOp {b : Board} {p : String} {r1 c1 r2 c2 : Nat} {op : Op}
    (hrep : repOk b = true)
    (hpair : heldPairAt b p r1 c1 r2 c2)
    (hop : isNotFlipBy p op = true) :
    heldPairAt (applyOp op b) p r1 c1 r2 c2 := by
  obtain ⟨v, hv⟩ := hpair
  cases op with
  | flip q r0 c0 tok =>
      have hqp : q ≠ p := by
        rw [isNotFlipBy] at hop
        exact of_decide_eq_true hop
      exact ⟨v, by rw [applyOp, playerCardsOf_flipCard_other hqp, hv]⟩
  | map q f =>
      rw [applyOp]
      cases hmc : mapCards q f b with
      | error e => exact ⟨v, hv⟩
      | ok x =>
          rw [mapCards] at hmc
          cases hcomp : computeTransform f (collectUniqueCards b) with
          | error e => rw [hcomp] at hmc; cases hmc
          | ok m =>
              rw [hcomp] at hmc
              have hx := Except.ok.inj hmc
              have hx2 : notifyWatchers (applyTransform m b) = x.2 :=
                congrArg Prod.snd hx
              show heldPairAt x.2 p r1 c1 r2 c2
              rw [← hx2]
              refine ⟨remap m v, ?_⟩
              rw [playerCardsOf_notifyWatchers,
                playerCardsOf_applyTransform hrep (computeTransform_valid hcomp), hv]
              rfl
  | render q => exact ⟨v, hv⟩
  | watch q tok => exact ⟨v, by rw [applyOp, playerCardsOf_watchRegister, hv]⟩

theorem heldPair_runOps {p : String} {r1 c1 r2 c2 : Nat} :
    ∀ {ops : List Op} {b : Board}, repOk b = true →
      ops.all (isNotFlipBy p) = true →
      heldPairAt b p r1 c1 r2 c2 →
      heldPairAt (runOps ops b) p r1 c1 r2 c2 := by
  intro ops
  induction ops with
  | nil => intro b _ _ hpair; exact hpair
  | cons op ops ih =>
      intro b hrep hall hpair
      rw [List.all_cons, Bool.and_eq_true] at hall
      rw [runOps, List.foldl_cons]
      exact ih (repOk_applyOp hrep) hall.2 (heldPair_applyOp hrep hpair hall.1)

/-! ### Cleanup removes a completed matched pair; removal is permanent -/

theorem cleanup_removes_pair {b : Board} {p : String} {r1 c1 r2 c2 : Nat}
    {v : String} (hv : playerCardsOf b p = [(r1, c1, v), (r2, c2, v)]) :
    getSpot (cleanupCompletedTurns p b).1 r1 c1 = some ⟨none, false, none⟩ ∧
    getSpot (cleanupCompletedTurns p b).1 r2 c2 = some ⟨none, false, none⟩ := by
  have hne : (r1, c1) ≠ (r2, c2) := playerCardsOf_pair_ne hv
  have hm1 : (r1, c1, v) ∈ playerCardsOf b p := by rw [hv]; simp
  have hm2 : (r2, c2, v) ∈ playerCardsOf b p := by rw [hv]; simp
  obtain ⟨_, _, hs1, _⟩ := mem_playerCardsOf hm1
  obtain ⟨_, _, hs2, _⟩ := mem_playerCardsOf hm2
  have hcm : getSpot (cleanupMatched p b).1 r1 c1 = some ⟨none, false, none⟩ ∧
      getSpot (cleanupMatched p b).1 r2 c2 = some ⟨none, false, none⟩ := by
    rw [cleanupMatched, hv]
    dsimp only
    rw [if_pos rfl]
    constructor
    · rw [getSpot_notifyCardWaiters, getSpot_notifyCardWaiters,
        getSpot_modifySpot_ne (Ne.symm hne), getSpot_modifySpot_self, hs1]
      rfl
    · rw [getSpot_notifyCardWaiters, getSpot_notifyCardWaiters,
        getSpot_modifySpot_self, getSpot_modifySpot_ne hne, hs2]
      rfl
  rw [cleanupCompletedTurns]
  constructor
  · rcases flipDownFold_spot (indicesRM b) (cleanupMatched p b) r1 c1 with
      h | ⟨s, hsx, _, h⟩
    · rw [h]; exact hcm.1
    · rw [hcm.1] at hsx
      cases hsx
      rw [h]
  · rcases flipDownFold_spot (indicesRM b) (cleanupMatched p b) r2 c2 with
      h | ⟨s, hsx, _, h⟩
    · rw [h]; exact hcm.2
    · rw [hcm.2] at hsx
      cases hsx
      rw [h]

theorem cleanup_spot_removed {p : String} {b : Board} {r c : Nat}
    (hs : getSpot b r c = some ⟨none, false, none⟩) :
    getSpot (cleanupCompletedTurns p b).1 r c = some ⟨none, false, none⟩ := by
  rcases cleanup_spot p b r c with h | ⟨s, hsx, _, h⟩ | ⟨s, hsx, _, h⟩
  · rw [h]; exact hs
  · rw [hs] at hsx; cases hsx; rw [h]
  · rw [hs] at hsx; cases hsx; rw [h]

theorem cleanedNotified_spot_removed {p : String} {b : Board} {r c : Nat}
    (hs : getSpot b r c = some ⟨none, false, none⟩) :
    getSpot (cleanedNotified p b) r c = some ⟨none, false, none⟩ := by
  rw [cleanedNotified]
  split
  · rw [getSpot_notifyWatchers]
    exact cleanup_spot_removed hs
  · exact cleanup_spot_removed hs

theorem flipLocked_spot_removed {q : String} {row col tok : Nat} {b : Board}
    {r c : Nat} (hs : getSpot b r c = some ⟨none, false, none⟩) :
    getSpot (stateOf (flipLocked q row col tok b)) r c =
      some ⟨none, false, none⟩ := by
  simp only [flipLocked]
  split
  · exact hs
  · split
    · exact hs
    · rename_i spot hspot
      split
      · exact hs
      · rename_i hncard
        split
        · exact hs
        · split
          · exact hs
          · split
            · exact hs
            · split
              · exact hs
              · simp only [stateOf]
                rw [getSpot_notifyWatchers]
                have htne : (row, col) ≠ (r, c) := by
                  intro hh
                  have hr := congrArg Prod.fst hh
                  have hc := congrArg Prod.snd hh
                  dsimp only at hr hc
                  rw [hr, hc, hs] at hspot
                  cases Option.some.inj hspot
                  exact hncard rfl
                split
                · split
                  · rename_i fc hfc
                    split
                    · have hfb := (findFirstCard_eq_some hfc).2.1
                      have hfne : (fc.1, fc.2.1) ≠ (r, c) := by
                        intro hh
                        have hr := congrArg Prod.fst hh
                        have hc := congrArg Prod.snd hh
                        dsimp only at hr hc
                        rw [hr, hc, getSpot_modifySpot_ne htne, hs] at hfb
                        cases Option.some.inj hfb
                      rw [getSpot_modifySpot_ne hfne, getSpot_modifySpot_ne htne,
                        getSpot_modifySpot_ne htne]
                      exact hs
                    · rw [getSpot_modifySpot_ne htne]; exact hs
                  · rw [getSpot_modifySpot_ne htne]; exact hs
                · rw [getSpot_modifySpot_ne htne]; exact hs

theorem flipCard_spot_removed {q : String} {row col tok : Nat} {b : Board}
    {r c : Nat} (hs : getSpot b r c = some ⟨none, false, none⟩) :
    getSpot (stateOf (flipCard q row col tok b)) r c =
      some ⟨none, false, none⟩ := by
  rw [flipCard]
  exact flipLocked_spot_removed (cleanedNotified_spot_removed hs)

/-! ### Transport between the cleanup result and cleanedNotified -/

theorem getSpot_cleanedNotified (p : String) (b : Board) (r c : Nat) :
    getSpot (cleanedNotified p b) r c = getSpot (cleanupCompletedTurns p b).1 r c := by
  rw [cleanedNotified]
  split
  · rw [getSpot_notifyWatchers]
  · rfl

theorem controlledCount_cleanedNotified (p : String) (b : Board) :
    controlledCount (cleanedNotified p b) p =
      controlledCount (cleanupCompletedTurns p b).1 p := by
  rw [cleanedNotified]
  split
  · rfl
  · rfl

theorem collectSpot_cleanedNotified (p : String) (b : Board) (rc : Nat × Nat) :
    collectSpot (cleanedNotified p b) p rc =
      collectSpot (cleanupCompletedTurns p b).1 p rc := by
  exact collectSpot_congr (getSpot_cleanedNotified p b rc.1 rc.2)

/-! ### Waiter-registry and no-op-cleanup facts -/

theorem waitersAt_waitForCard (b : Board) (r c tok : Nat) :
    waitersAt (waitForCard b r c tok) r c = waitersAt b r c ++ [tok] := by
  rw [waitersAt, waitForCard]
  dsimp only
  rw [find?_append_of_none]
  · simp [List.find?]
  · intro a ha
    have h2 := (List.mem_filter.mp ha).2
    exact decide_eq_false (of_decide_eq_true h2)

theorem flipDownStep_of_flag_false {acc : Board × Bool} {rc : Nat × Nat}
    (h : (flipDownStep acc rc).2 = false) :
    flipDownStep acc rc = acc ∧ acc.2 = false := by
  rw [flipDownStep] at h ⊢
  split at h
  · split at h
    · cases h
    · exact ⟨by split <;> simp_all, h⟩
  · exact ⟨rfl, h⟩

theorem flipDownFold_of_flag_false :
    ∀ (l : List (Nat × Nat)) (acc : Board × Bool),
    (l.foldl flipDownStep acc).2 = false →
    l.foldl flipDownStep acc = acc ∧ acc.2 = false := by
  intro l
  induction l with
  | nil => intro acc h; exact ⟨rfl, h⟩
  | cons a l ih =>
      intro acc h
      rw [List.foldl_cons] at h ⊢
      obtain ⟨h1, h2⟩ := ih (flipDownStep acc a) h
      obtain ⟨h3, h4⟩ := flipDownStep_of_flag_false h2
      exact ⟨by rw [h1, h3], h4⟩

theorem cleanupMatched_of_flag_false {p : String} {b : Board}
    (h : (cleanupMatched p b).2 = false) : cleanupMatched p b = (b, false) := by
  rw [cleanupMatched] at h ⊢
  split at h
  · split at h
    · cases h
    · rename_i hne
      rw [if_neg hne]
  · rfl

theorem cleanup_of_flag_false {p : String} {b : Board}
    (h : (cleanupCompletedTurns p b).2 = false) :
    (cleanupCompletedTurns p b).1 = b := by
  rw [cleanupCompletedTurns] at h ⊢
  obtain ⟨h1, h2⟩ := flipDownFold_of_flag_false (indicesRM b) (cleanupMatched p b) h
  rw [h1, cleanupMatched_of_flag_false h2]

theorem cleanedNotified_of_flag_false {p : String} {b : Board}
    (h : (cleanupCompletedTurns p b).2 = false) : cleanedNotified p b = b := by
  rw [cleanedNotified, h]
  show (cleanupCompletedTurns p b).1 = b
  exact cleanup_of_flag_false h

/-! ### Snapshot and compute phases of mapCards -/

theorem collectStep_mem {b : Board} {acc : List String} {rc : Nat × Nat}
    {v : String} :
    v ∈ collectStep b acc rc ↔
      v ∈ acc ∨ (match getSpot b rc.1 rc.2 with
        | some s => s.card = some v
        | none => False) := by
  rw [collectStep]
  split
  · rename_i s hs
    cases hc : s.card with
    | none =>
        simp only [hc]
        constructor
        · intro h; exact Or.inl h
        · rintro (h | h)
          · exact h
          · cases h
    | some w =>
        simp only [hc]
        by_cases hw : w ∈ acc
        · rw [if_pos hw]
          constructor
          · intro h; exact Or.inl h
          · rintro (h | h)
            · exact h
            · cases Option.some.inj h; exact hw
        · rw [if_neg hw]
          rw [List.mem_append, List.mem_singleton]
          constructor
          · rintro (h | h)
            · exact Or.inl h
            · exact Or.inr (by rw [h])
          · rintro (h | h)
            · exact Or.inl h
            · exact Or.inr (Option.some.inj h).symm
  · constructor
    · intro h; exact Or.inl h
    · rintro (h | h)
      · exact h
      · cases h

theorem collectFold_mem (b : Board) (v : String) :
    ∀ (l : List (Nat × Nat)) (acc : List String),
    v ∈ l.foldl (collectStep b) acc ↔
      v ∈ acc ∨ ∃ rc ∈ l, (match getSpot b rc.1 rc.2 with
        | some s => s.card = some v
        | none => False) := by
  intro l
  induction l with
  | nil => intro acc; simp
  | cons a l ih =>
      intro acc
      rw [List.foldl_cons, ih, collectStep_mem]
      constructor
      · rintro ((h | h) | ⟨rc, hrc, hmat⟩)
        · exact Or.inl h
        · exact Or.inr ⟨a, by simp, h⟩
        · exact Or.inr ⟨rc, by simp [hrc], hmat⟩
      · rintro (h | ⟨rc, hrc, hmat⟩)
        · exact Or.inl (Or.inl h)
        · rcases List.mem_cons.mp hrc with h1 | h1
          · exact Or.inl (Or.inr (h1 ▸ hmat))
          · exact Or.inr ⟨rc, h1, hmat⟩

theorem collectFold_nodup (b : Board) :
    ∀ (l : List (Nat × Nat)) (acc : List String), acc.Nodup →
    (l.foldl (collectStep b) acc).Nodup := by
  intro l
  induction l with
  | nil => intro acc h; exact h
  | cons a l ih =>
      intro acc h
      rw [List.foldl_cons]
      apply ih
      rw [collectStep]
      split
      · rename_i s hs
        cases hc : s.card with
        | none => exact h
        | some w =>
            dsimp only
            by_cases hw : w ∈ acc
            · rw [if_pos hw]; exact h
            · rw [if_neg hw]
              simp [List.nodup_append, h, hw]
      · exact h

theorem collectUniqueCards_nodup (b : Board) : (collectUniqueCards b).Nodup :=
  collectFold_nodup b (indicesRM b) [] List.nodup_nil

theorem mem_collectUniqueCards {b : Board} {v : String} :
    v ∈ collectUniqueCards b ↔ cardPresent b v = true := by
  rw [collectUniqueCards, collectFold_mem]
  simp only [List.not_mem_nil, false_or]
  rw [cardPresent, List.any_eq_true]
  constructor
  · rintro ⟨rc, hrc, hmat⟩
    refine ⟨rc, hrc, ?_⟩
    cases hg : getSpot b rc.1 rc.2 with
    | none => rw [hg] at hmat; cases hmat
    | some s =>
        rw [hg] at hmat
        show decide (s.card = some v) = true
        exact decide_eq_true hmat
  · rintro ⟨rc, hrc, hmat⟩
    refine ⟨rc, hrc, ?_⟩
    cases hg : getSpot b rc.1 rc.2 with
    | none => rw [hg] at hmat; cases hmat
    | some s =>
        rw [hg] at hmat
        exact of_decide_eq_true hmat

theorem mem_transformCalls {f : String → String} :
    ∀ {l : List String} {v : String}, v ∈ transformCalls f l → v ∈ l := by
  intro l
  induction l with
  | nil => intro v h; cases h
  | cons w ws ih =>
      intro v h
      rw [transformCalls] at h
      rcases List.mem_cons.mp h with h1 | h1
      · rw [h1]; exact List.mem_cons_self w ws
      · split at h1
        · exact List.mem_cons_of_mem w (ih h1)
        · cases h1

theorem transformCalls_nodup {f : String → String} :
    ∀ {l : List String}, l.Nodup → (transformCalls f l).Nodup := by
  intro l
  induction l with
  | nil => intro h; exact List.nodup_nil
  | cons w ws ih =>
      intro h
      rw [transformCalls, List.nodup_cons]
      obtain ⟨hw, hws⟩ := List.nodup_cons.mp h
      constructor
      · intro hmem
        split at hmem
        · exact hw (mem_transformCalls hmem)
        · cases hmem
      · split
        · exact ih hws
        · exact List.nodup_nil

theorem computeTransform_of_ok {f : String → String} :
    ∀ {l : List String} {m : List (String × String)},
    computeTransform f l = .ok m →
    transformCalls f l = l ∧ m.map Prod.fst = l ∧ ∀ kv ∈ m, kv.2 = f kv.1 := by
  intro l
  induction l with
  | nil =>
      intro m h
      rw [computeTransform] at h
      cases h
      exact ⟨rfl, rfl, by intro kv hkv; cases hkv⟩
  | cons w ws ih =>
      intro m h
      rw [computeTransform] at h
      split at h
      · rename_i hval
        cases hrec : computeTransform f ws with
        | error e => rw [hrec] at h; cases h
        | ok rest =>
            rw [hrec] at h
            cases h
            obtain ⟨h1, h2, h3⟩ := ih hrec
            refine ⟨?_, ?_, ?_⟩
            · rw [transformCalls, if_pos hval, h1]
            · rw [List.map_cons, h2]
            · intro kv hkv
              rcases List.mem_cons.mp hkv with h4 | h4
              · rw [h4]
              · exact h3 kv h4
      · cases h

theorem applyTransform_pair {st : Board} {m : List (String × String)}
    {r1 c1 r2 c2 : Nat} {s1 s2 : Spot} {v : String}
    (h1 : getSpot st r1 c1 = some s1) (h2 : getSpot st r2 c2 = some s2)
    (hc1 : s1.card = some v) (hc2 : s2.card = some v)
    (hls : (m.lookup v).isSome = true) :
    ∃ nv, m.lookup v = some nv ∧
      getSpot (applyTransform m st) r1 c1 = some { s1 with card := some nv } ∧
      getSpot (applyTransform m st) r2 c2 = some { s2 with card := some nv } := by
  rw [Option.isSome_iff_exists] at hls
  obtain ⟨nv, hnv⟩ := hls
  have hone : ∀ (r c : Nat) (s : Spot), getSpot st r c = some s → s.card = some v →
      getSpot (applyTransform m st) r c = some { s with card := some nv } := by
    intro r c s hg hc
    rw [getSpot_applyTransform, hg, Option.map_some']
    obtain ⟨ca, fu, ct⟩ := s
    dsimp only at hc
    subst hc
    rw [applySpotT]
    dsimp only
    rw [if_pos (by rw [hnv]; rfl), remap, hnv]
  exact ⟨nv, hnv, hone r1 c1 s1 h1 hc1, hone r2 c2 s2 h2 hc2⟩

/-! ### Claim C1 -/

/-- C1: for every board constructed via `parseFromFile` and every
sequence of `flipCard`, `mapCards`, `renderFor` and `watch` operations,
in every state observable between operations (including the states left
behind by faulting or suspending calls) each spot satisfies
`card = none → (¬faceUp ∧ controller = none)` and
`controller ≠ none → faceUp`. -/
theorem spot_invariants_reachable (raw : String) (b : Board) (ops : List Op)
    (h : parseFromFile raw = .ok b) : boardInv (runOps ops b) = true :=
  boardInv_of_repOk (repOk_runOps (repOk_parseFromFile h))

/-- Witness for C1 at the handout board and a mixed operation sequence
(successful flips, a watch, a map, a render, a contended flip and an
out-of-bounds flip). -/
theorem spot_invariants_reachable_witness :
    parseFromFile exRawAABB = .ok exAABB ∧
      boardInv (runOps [Op.flip "p1" 0 0 10, Op.watch "p2" 5, Op.flip "p1" 0 1 11,
        Op.map "p2" (fun v => v ++ "Z"), Op.render "p1", Op.flip "p1" 1 0 12,
        Op.flip "p2" 1 0 13, Op.flip "p2" 9 9 14] exAABB) = true :=
  ⟨by rfl, spot_invariants_reachable exRawAABB exAABB _ (by rfl)⟩

/-! ### Claim C2 -/

/-- C2: a player holding a completed pair of equal-valued cards keeps
both cells face-up and controlled across every sequence of operations
that contains no `flipCard` call by that player; that player's next
`flipCard` call removes both cells (`card = none`, `faceUp = false`,
`controller = none`) in its cleanup pass, before the new flip is
evaluated, and they are removed in the state the call leaves behind
whatever its outcome.  In particular, on the `2x2` board `[A, A, B, B]`,
after `p1` flips `(0,0)` and `(0,1)` both render as `my A`, and `p1`'s
next flip of `(1,0)` removes `(0,0)` and `(0,1)` (rendered `none`) and
makes `(1,0)` render as `my B`. -/
theorem completed_pair_retention {b : Board} {p : String} {r1 c1 r2 c2 : Nat}
    (hrep : repOk b = true) (hpair : heldPairAt b p r1 c1 r2 c2) :
    ((∃ v, getSpot b r1 c1 = some ⟨some v, true, some p⟩ ∧
           getSpot b r2 c2 = some ⟨some v, true, some p⟩) ∧
     (∀ ops : List Op, ops.all (isNotFlipBy p) = true →
       ∃ v', getSpot (runOps ops b) r1 c1 = some ⟨some v', true, some p⟩ ∧
             getSpot (runOps ops b) r2 c2 = some ⟨some v', true, some p⟩) ∧
     (∀ ops : List Op, ops.all (isNotFlipBy p) = true → ∀ row col tok,
       getSpot (cleanupCompletedTurns p (runOps ops b)).1 r1 c1 =
         some ⟨none, false, none⟩ ∧
       getSpot (cleanupCompletedTurns p (runOps ops b)).1 r2 c2 =
         some ⟨none, false, none⟩ ∧
       getSpot (stateOf (flipCard p row col tok (runOps ops b))) r1 c1 =
         some ⟨none, false, none⟩ ∧
       getSpot (stateOf (flipCard p row col tok (runOps ops b))) r2 c2 =
         some ⟨none, false, none⟩)) ∧
    (renderFor exAABB2 "p1" = "2x2\nmy A\nmy A\ndown\ndown\n" ∧
     flipCard "p1" 1 0 12 exAABB2 = .ok exAABB3 ∧
     getSpot exAABB3 0 0 = some ⟨none, false, none⟩ ∧
     getSpot exAABB3 0 1 = some ⟨none, false, none⟩ ∧
     renderFor exAABB3 "p1" = "2x2\nnone\nnone\nmy B\ndown\n") := by
  refine ⟨⟨?_, ?_, ?_⟩, by rfl, by rfl, by rfl, by rfl, by rfl⟩
  · obtain ⟨v, hv⟩ := hpair
    obtain ⟨_, _, hs1, _⟩ := mem_playerCardsOf (show (r1, c1, v) ∈ _ by rw [hv]; simp)
    obtain ⟨_, _, hs2, _⟩ := mem_playerCardsOf (show (r2, c2, v) ∈ _ by rw [hv]; simp)
    exact ⟨v, hs1, hs2⟩
  · intro ops hops
    obtain ⟨v', hv'⟩ := heldPair_runOps hrep hops hpair
    obtain ⟨_, _, hs1, _⟩ :=
      mem_playerCardsOf (show (r1, c1, v') ∈ _ by rw [hv']; simp)
    obtain ⟨_, _, hs2, _⟩ :=
      mem_playerCardsOf (show (r2, c2, v') ∈ _ by rw [hv']; simp)
    exact ⟨v', hs1, hs2⟩
  · intro ops hops row col tok
    obtain ⟨v', hv'⟩ := heldPair_runOps hrep hops hpair
    have hclean := cleanup_removes_pair hv'
    have hcn1 : getSpot (cleanedNotified p (runOps ops b)) r1 c1 =
        some ⟨none, false, none⟩ := by
      rw [cleanedNotified]
      split
      · rw [getSpot_notifyWatchers]; exact hclean.1
      · exact hclean.1
    have hcn2 : getSpot (cleanedNotified p (runOps ops b)) r2 c2 =
        some ⟨none, false, none⟩ := by
      rw [cleanedNotified]
      split
      · rw [getSpot_notifyWatchers]; exact hclean.2
      · exact hclean.2
    refine ⟨hclean.1, hclean.2, ?_, ?_⟩
    · rw [flipCard]
      exact flipLocked_spot_removed hcn1
    · rw [flipCard]
      exact flipLocked_spot_removed hcn2

/-- Witness for C2: on the handout board, after `p1` flips `(0,0)` and
`(0,1)`, the pair is held, and it survives a flip attempt by `p2`, a
map, a render and a watch. -/
theorem completed_pair_retention_witness :
    (repOk exAABB2 = true ∧ playerCardsOf exAABB2 "p1" = [(0, 0, "A"), (0, 1, "A")]) ∧
    (∃ v, getSpot exAABB2 0 0 = some ⟨some v, true, some "p1"⟩ ∧
          getSpot exAABB2 0 1 = some ⟨some v, true, some "p1"⟩) ∧
    (∃ v', getSpot (runOps [Op.flip "p2" 0 0 40, Op.render "p2", Op.watch "p2" 41,
            Op.map "p2" (fun v => v ++ "Z")] exAABB2) 0 0 =
          some ⟨some v', true, some "p1"⟩ ∧
        getSpot (runOps [Op.flip "p2" 0 0 40, Op.render "p2", Op.watch "p2" 41,
            Op.map "p2" (fun v => v ++ "Z")] exAABB2) 0 1 =
          some ⟨some v', true, some "p1"⟩) := by
  refine ⟨⟨by decide, by decide⟩, ?_, ?_⟩
  · exact (completed_pair_retention (by decide) ⟨"A", by decide⟩).1.1
  · exact (completed_pair_retention (by decide) ⟨"A", by decide⟩).1.2.1 _ (by decide)

/-! ### Claim C3 -/

/-- C3: a player holding one card who flips a second, unequal-valued,
uncontrolled card gets a successful `flipCard` return in which the
controller of both cells has already been cleared while both remain
face-up; and the cleanup pass that starts that player's next `flipCard`
call (which `flipCard` runs before anything else) turns both cells
face-down. -/
theorem mismatched_pair_release
    {b : Board} {p : String} {r1 c1 r2 c2 : Nat} {v1 v2 : String} {s2 : Spot}
    (tok : Nat)
    (hv1 : playerCardsOf b p = [(r1, c1, v1)])
    (hcnt : controlledCount b p = 1)
    (hr2 : r2 < b.rows) (hc2 : c2 < b.cols)
    (hs2 : getSpot b r2 c2 = some s2)
    (hcard2 : s2.card = some v2) (hctl2 : s2.controller = none)
    (hne : v2 ≠ v1) :
    ∃ b', flipCard p r2 c2 tok b = .ok b' ∧
      getSpot b' r1 c1 = some ⟨some v1, true, none⟩ ∧
      getSpot b' r2 c2 = some ⟨some v2, true, none⟩ ∧
      getSpot (cleanupCompletedTurns p b').1 r1 c1 = some ⟨some v1, false, none⟩ ∧
      getSpot (cleanupCompletedTurns p b').1 r2 c2 = some ⟨some v2, false, none⟩ := by
  obtain ⟨ca2, fu2, ct2⟩ := s2
  dsimp only at hcard2 hctl2
  subst hcard2; subst hctl2
  obtain ⟨hb1r, hb1c, hs1, hv1ne⟩ :=
    mem_playerCardsOf (show (r1, c1, v1) ∈ playerCardsOf b p by rw [hv1]; simp)
  have hne12 : (r1, c1) ≠ (r2, c2) := by
    intro hh
    have hr := congrArg Prod.fst hh
    have hc := congrArg Prod.snd hh
    dsimp only at hr hc
    rw [hr, hc, hs2] at hs1
    cases Option.some.inj hs1
  have hcle : cleanupCompletedTurns p b = (indicesRM b).foldl flipDownStep (b, false) :=
    cleanup_of_count_le_one (by omega)
  have hs1c : getSpot (cleanupCompletedTurns p b).1 r1 c1 =
      some ⟨some v1, true, some p⟩ := by
    rw [hcle]
    exact flipDownFold_spot_ctrl_some hs1 rfl
  have hs2c : ∃ fu2c, getSpot (cleanupCompletedTurns p b).1 r2 c2 =
      some ⟨some v2, fu2c, none⟩ := by
    rw [hcle]
    rcases flipDownFold_spot (indicesRM b) (b, false) r2 c2 with h | ⟨s', hsx, _, h⟩
    · exact ⟨fu2, by rw [h]; exact hs2⟩
    · rw [hs2] at hsx
      cases hsx
      exact ⟨false, by rw [h]⟩
  obtain ⟨fu2c, hs2c⟩ := hs2c
  have hcntc : controlledCount (cleanedNotified p b) p = 1 := by
    rw [controlledCount_cleanedNotified, controlledCount_cleanup_of_le_one (by omega),
      hcnt]
  have hs1cn : getSpot (cleanedNotified p b) r1 c1 = some ⟨some v1, true, some p⟩ := by
    rw [getSpot_cleanedNotified]; exact hs1c
  have hs2cn : getSpot (cleanedNotified p b) r2 c2 = some ⟨some v2, fu2c, none⟩ := by
    rw [getSpot_cleanedNotified]; exact hs2c
  have hdims := dims_cleanedNotified p b
  -- every cell other than (r1, c1) fails the collection test, before and
  -- after cleanup
  have hnone : ∀ rc : Nat × Nat, rc ∈ indicesRM b → rc ≠ (r1, c1) →
      collectSpot (cleanedNotified p b) p rc = none := by
    intro rc hrc hrcne
    have hb : collectSpot b p rc = none := by
      cases hcs : collectSpot b p rc with
      | none => rfl
      | some x =>
          obtain ⟨v, hsv, hvne, hxeq⟩ := collectSpot_eq_some.mp hcs
          have hxmem : x ∈ playerCardsOf b p :=
            List.mem_filterMap.mpr ⟨rc, hrc, hcs⟩
          rw [hv1] at hxmem
          have hx1 : x = (r1, c1, v1) := by simpa using hxmem
          rw [hx1] at hxeq
          have h1 : r1 = rc.1 := congrArg (fun y => y.1) hxeq
          have h2 : c1 = rc.2 := congrArg (fun y => y.2.1) hxeq
          exfalso
          apply hrcne
          have heta : rc = (rc.1, rc.2) := rfl
          rw [heta, ← h1, ← h2]
    rw [collectSpot_cleanedNotified, hcle]
    exact collectSpot_flipDownFold_none hb
  -- the firstCard search in the flipped board finds exactly (r1, c1)
  have hfind : findFirstCard
      (modifySpot (cleanedNotified p b) r2 c2
        fun s => { s with faceUp := true, controller := some p }) p r2 c2 =
      some (r1, c1, v1) := by
    rw [findFirstCard]
    apply findSome?_eq_some_of_unique (r1, c1)
    · rw [mem_indicesRM]
      constructor
      · show r1 < (cleanedNotified p b).rows
        rw [hdims.1]
        omega
      · show c1 < (cleanedNotified p b).cols
        rw [hdims.2]
        omega
    · rw [if_neg]
      · apply collectSpot_eq_some.mpr
        refine ⟨v1, ?_, hv1ne, rfl⟩
        show getSpot (modifySpot _ r2 c2 _) r1 c1 = _
        rw [getSpot_modifySpot_ne (Ne.symm hne12)]
        exact hs1cn
      · intro hh
        apply hne12
        have h1 := hh.1
        have h2 := hh.2
        dsimp only at h1 h2
        rw [h1, h2]
    · intro rc hrc hrcne
      by_cases hskip : rc.1 = r2 ∧ rc.2 = c2
      · rw [if_pos hskip]
      · rw [if_neg hskip]
        have hgne : getSpot (modifySpot (cleanedNotified p b) r2 c2
            (fun s => { s with faceUp := true, controller := some p })) rc.1 rc.2 =
            getSpot (cleanedNotified p b) rc.1 rc.2 :=
          getSpot_modifySpot_ne (pair_ne_of_not_and
            (fun hh => hskip ⟨hh.1.symm ▸ rfl, hh.2.symm ▸ rfl⟩))
        rw [collectSpot_congr hgne]
        apply hnone rc
        · have hidx : indicesRM
              (modifySpot (cleanedNotified p b) r2 c2
                fun s => { s with faceUp := true, controller := some p }) =
              indicesRM b := by
            apply indicesRM_congr
            · exact hdims.1
            · exact hdims.2
          rw [← hidx]
          exact hrc
        · intro hh
          rw [hh] at hrcne
          exact hrcne rfl
  have hnev : some v1 ≠ (some v2 : Option String) := by
    intro h
    exact hne (Option.some.inj h).symm
  -- symbolic execution of the locked flip protocol
  refine ⟨notifyWatchers
      (modifySpot
        (modifySpot
          (modifySpot (cleanedNotified p b) r2 c2
            fun s => { s with faceUp := true, controller := some p })
          r2 c2 fun s => { s with controller := none })
        r1 c1 fun s => { s with controller := none }), ?_, ?_, ?_, ?_, ?_⟩
  · rw [flipCard]
    simp only [flipLocked]
    split
    · rename_i hcon
      exfalso
      rcases hcon with h | h
      · rw [hdims.1] at h; omega
      · rw [hdims.2] at h; omega
    · split
      · rename_i heq
        rw [hs2cn] at heq
        cases heq
      · rename_i spot hspot
        rw [hs2cn] at hspot
        have hspote := Option.some.inj hspot
        subst hspote
        split
        · rename_i hcard
          simp at hcard
        · split
          · rename_i h2
            rw [hcntc] at h2
            omega
          · split
            · rename_i hog
              have := hog.1
              simp at this
            · split
              · rename_i hsg
                have := hsg.2
                simp at this
              · split
                · rename_i hwg
                  exact absurd hcntc hwg.1
                · rw [hfind]
                  dsimp only
                  rw [if_pos hnev]
  · rw [getSpot_notifyWatchers, getSpot_modifySpot_self,
      getSpot_modifySpot_ne (Ne.symm hne12), getSpot_modifySpot_ne (Ne.symm hne12),
      hs1cn]
    rfl
  · rw [getSpot_notifyWatchers, getSpot_modifySpot_ne hne12,
      getSpot_modifySpot_self, getSpot_modifySpot_self, hs2cn]
    rfl
  all_goals {
    have hg1 : getSpot (notifyWatchers
        (modifySpot (modifySpot (modifySpot (cleanedNotified p b) r2 c2
          fun s => { s with faceUp := true, controller := some p })
          r2 c2 fun s => { s with controller := none })
        r1 c1 fun s => { s with controller := none })) r1 c1 =
        some ⟨some v1, true, none⟩ := by
      rw [getSpot_notifyWatchers, getSpot_modifySpot_self,
        getSpot_modifySpot_ne (Ne.symm hne12), getSpot_modifySpot_ne (Ne.symm hne12),
        hs1cn]
      rfl
    have hg2 : getSpot (notifyWatchers
        (modifySpot (modifySpot (modifySpot (cleanedNotified p b) r2 c2
          fun s => { s with faceUp := true, controller := some p })
          r2 c2 fun s => { s with controller := none })
        r1 c1 fun s => { s with controller := none })) r2 c2 =
        some ⟨some v2, true, none⟩ := by
      rw [getSpot_notifyWatchers, getSpot_modifySpot_ne hne12,
        getSpot_modifySpot_self, getSpot_modifySpot_self, hs2cn]
      rfl
    have hdims' : (notifyWatchers
        (modifySpot (modifySpot (modifySpot (cleanedNotified p b) r2 c2
          fun s => { s with faceUp := true, controller := some p })
          r2 c2 fun s => { s with controller := none })
        r1 c1 fun s => { s with controller := none })).rows = b.rows ∧
        (notifyWatchers
        (modifySpot (modifySpot (modifySpot (cleanedNotified p b) r2 c2
          fun s => { s with faceUp := true, controller := some p })
          r2 c2 fun s => { s with controller := none })
        r1 c1 fun s => { s with controller := none })).cols = b.cols := hdims
    have hps : playerCardsOf (notifyWatchers
        (modifySpot (modifySpot (modifySpot (cleanedNotified p b) r2 c2
          fun s => { s with faceUp := true, controller := some p })
          r2 c2 fun s => { s with controller := none })
        r1 c1 fun s => { s with controller := none })) p = [] := by
      rw [playerCardsOf]
      rw [List.filterMap_eq_nil]
      intro rc hrc
      by_cases h1 : rc = (r1, c1)
      · subst h1
        exact collectSpot_eq_none hg1 (Or.inl (by intro hh; cases hh))
      · by_cases h2 : rc = (r2, c2)
        · subst h2
          exact collectSpot_eq_none hg2 (Or.inl (by intro hh; cases hh))
        · have hgo : getSpot (notifyWatchers
              (modifySpot (modifySpot (modifySpot (cleanedNotified p b) r2 c2
                fun s => { s with faceUp := true, controller := some p })
                r2 c2 fun s => { s with controller := none })
              r1 c1 fun s => { s with controller := none })) rc.1 rc.2 =
              getSpot (cleanedNotified p b) rc.1 rc.2 := by
            rw [getSpot_notifyWatchers,
              getSpot_modifySpot_ne (fun hh => h1 (by
                have heta : rc = (rc.1, rc.2) := rfl
                rw [heta, ← hh])),
              getSpot_modifySpot_ne (fun hh => h2 (by
                have heta : rc = (rc.1, rc.2) := rfl
                rw [heta, ← hh])),
              getSpot_modifySpot_ne (fun hh => h2 (by
                have heta : rc = (rc.1, rc.2) := rfl
                rw [heta, ← hh]))]
          rw [collectSpot_congr hgo]
          apply hnone rc
          · rw [← indicesRM_congr hdims'.1 hdims'.2]
            exact hrc
          · exact h1
    have hcle' : cleanupCompletedTurns p (notifyWatchers
        (modifySpot (modifySpot (modifySpot (cleanedNotified p b) r2 c2
          fun s => { s with faceUp := true, controller := some p })
          r2 c2 fun s => { s with controller := none })
        r1 c1 fun s => { s with controller := none })) =
        (indicesRM (notifyWatchers
        (modifySpot (modifySpot (modifySpot (cleanedNotified p b) r2 c2
          fun s => { s with faceUp := true, controller := some p })
          r2 c2 fun s => { s with controller := none })
        r1 c1 fun s => { s with controller := none }))).foldl flipDownStep
        (notifyWatchers
        (modifySpot (modifySpot (modifySpot (cleanedNotified p b) r2 c2
          fun s => { s with faceUp := true, controller := some p })
          r2 c2 fun s => { s with controller := none })
        r1 c1 fun s => { s with controller := none }), false) := by
      rw [cleanupCompletedTurns, cleanupMatched_of_le_one (by rw [hps]; simp)]
    rw [hcle']
    apply flipDownFold_flips'
    · rw [indicesRM_congr hdims'.1 hdims'.2, mem_indicesRM]
      omega
    · first
      | exact hg1
      | exact hg2
    · rfl
    · rfl
  }

/-- Witness for C3: on the handout board, `p1` holds `(0,0)` (`A`) and
flips `(1,0)` (`B`): control of both cells is released while they stay
face-up, and `p1`'s next cleanup turns both face-down. -/
theorem mismatched_pair_release_witness :
    (playerCardsOf exAABB1 "p1" = [(0, 0, "A")] ∧
     controlledCount exAABB1 "p1" = 1 ∧
     getSpot exAABB1 1 0 = some ⟨some "B", false, none⟩ ∧
     ("B" : String) ≠ "A") ∧
    (∃ b', flipCard "p1" 1 0 50 exAABB1 = .ok b' ∧
      getSpot b' 0 0 = some ⟨some "A", true, none⟩ ∧
      getSpot b' 1 0 = some ⟨some "B", true, none⟩ ∧
      getSpot (cleanupCompletedTurns "p1" b').1 0 0 = some ⟨some "A", false, none⟩ ∧
      getSpot (cleanupCompletedTurns "p1" b').1 1 0 = some ⟨some "B", false, none⟩) :=
  ⟨⟨by decide, by decide, by decide, by decide⟩,
    mismatched_pair_release 50 (by decide) (by decide) (by decide) (by decide)
      (show getSpot exAABB1 1 0 = some ⟨some "B", false, none⟩ by decide)
      rfl rfl (by decide)⟩

/-! ### Claim C4 -/

/-- C4: a `flipCard` call targeting a cell controlled by a different
player fails immediately (no suspension) when the caller already
controls exactly one face-up card, and suspends — registering its
continuation in the card-availability queue for exactly that position,
to re-run the whole protocol from the cleanup pass once woken — when the
caller controls none. -/
theorem flip_contention {b : Board} {p q : String} {r c : Nat} {s : Spot}
    (tok : Nat) (hrep : repOk b = true)
    (hr : r < b.rows) (hc : c < b.cols)
    (hs : getSpot b r c = some s)
    (hctl : s.controller = some q) (hqp : q ≠ p) :
    (controlledCount b p = 1 →
      flipCard p r c tok b =
        .err "cannot flip: card is controlled by another player"
          (cleanedNotified p b)) ∧
    (controlledCount b p = 0 →
      flipCard p r c tok b = .wait (waitForCard (cleanedNotified p b) r c tok) ∧
      tok ∈ waitersAt (stateOf (flipCard p r c tok b)) r c) := by
  obtain ⟨ca, fu, ct⟩ := s
  dsimp only at hctl
  subst hctl
  have hok := repOk_getSpot hrep hs
  rw [spotOk, Bool.and_eq_true] at hok
  have hinv := hok.1
  rw [spotInv, Bool.and_eq_true] at hinv
  have hfu : fu = true := by
    have h2 := hinv.2
    simpa using h2
  subst hfu
  have hca : ca.isSome = true := by
    have h1 := hinv.1
    simpa using h1
  have hscl : getSpot (cleanupCompletedTurns p b).1 r c =
      some ⟨ca, true, some q⟩ := cleanup_spot_other hs rfl hqp
  have hscn : getSpot (cleanedNotified p b) r c = some ⟨ca, true, some q⟩ := by
    rw [getSpot_cleanedNotified]
    exact hscl
  have hdims := dims_cleanedNotified p b
  constructor
  · intro hcnt1
    have hcntc : controlledCount (cleanedNotified p b) p = 1 := by
      rw [controlledCount_cleanedNotified,
        controlledCount_cleanup_of_le_one (by omega), hcnt1]
    rw [flipCard]
    simp only [flipLocked]
    split
    · rename_i hcon
      exfalso
      rcases hcon with h | h
      · rw [hdims.1] at h; omega
      · rw [hdims.2] at h; omega
    · split
      · rename_i heq
        rw [hscn] at heq
        cases heq
      · rename_i spot hspot
        rw [hscn] at hspot
        have he := Option.some.inj hspot
        subst he
        split
        · rename_i hcard
          exfalso
          cases hcaE : ca with
          | none => rw [hcaE] at hca; cases hca
          | some v => rw [hcaE] at hcard; simp at hcard
        · split
          · rename_i h2
            rw [hcntc] at h2
            omega
          · split
            · rename_i hog
              exfalso
              exact hqp (Option.some.inj hog.1)
            · split
              · rfl
              · rename_i hsg
                exfalso
                exact hsg ⟨hcntc, rfl⟩
  · intro hcnt0
    have hcntc : controlledCount (cleanedNotified p b) p = 0 := by
      rw [controlledCount_cleanedNotified,
        controlledCount_cleanup_of_le_one (by omega), hcnt0]
    have hflip : flipCard p r c tok b =
        .wait (waitForCard (cleanedNotified p b) r c tok) := by
      rw [flipCard]
      simp only [flipLocked]
      split
      · rename_i hcon
        exfalso
        rcases hcon with h | h
        · rw [hdims.1] at h; omega
        · rw [hdims.2] at h; omega
      · split
        · rename_i heq
          rw [hscn] at heq
          cases heq
        · rename_i spot hspot
          rw [hscn] at hspot
          have he := Option.some.inj hspot
          subst he
          split
          · rename_i hcard
            exfalso
            cases hcaE : ca with
            | none => rw [hcaE] at hca; cases hca
            | some v => rw [hcaE] at hcard; simp at hcard
          · split
            · rename_i h2
              rw [hcntc] at h2
              omega
            · split
              · rename_i hog
                exfalso
                exact hqp (Option.some.inj hog.1)
              · split
                · rename_i hsg
                  exfalso
                  rw [hcntc] at hsg
                  omega
                · split
                  · rfl
                  · rename_i hwg
                    exfalso
                    refine hwg ⟨by rw [hcntc]; omega, rfl, ?_⟩
                    intro hh
                    exact hqp (Option.some.inj hh)
    refine ⟨hflip, ?_⟩
    rw [hflip]
    show tok ∈ waitersAt (waitForCard (cleanedNotified p b) r c tok) r c
    rw [waitersAt_waitForCard]
    simp

/-- Witness for C4: on the distinct-card board where `p1` controls
`(0,0)`, a first-card attempt by `p2` on `(0,0)` suspends and registers
its waiter, and a second-card attempt (after `p2` takes `(1,1)`) fails
immediately. -/
theorem flip_contention_witness :
    (repOk exABCD1 = true ∧ getSpot exABCD1 0 0 = some ⟨some "A", true, some "p1"⟩ ∧
      ("p1" : String) ≠ "p2" ∧ controlledCount exABCD1 "p2" = 0) ∧
    (flipCard "p2" 0 0 77 exABCD1 =
        .wait (waitForCard (cleanedNotified "p2" exABCD1) 0 0 77) ∧
      77 ∈ waitersAt (stateOf (flipCard "p2" 0 0 77 exABCD1)) 0 0) := by
  refine ⟨⟨by decide, by decide, by decide, by decide⟩, ?_⟩
  exact (flip_contention 77 (by decide) (by decide) (by decide)
    (show getSpot exABCD1 0 0 = some ⟨some "A", true, some "p1"⟩ by decide)
    rfl (by decide)).2 (by decide)

/-! ### Claim C7 -/

/-- C7 (amended): when the player controls exactly one face-up card and
flips that very cell, the call fails with the "already controlled by
you" fault and never suspends.  (As stated, with the player holding a
completed matched pair, the claim fails: cleanup removes the pair first
and the call faults with "no card at position" — see the
counterexample.) -/
theorem own_card_reflip_fault {b : Board} {p : String} {r c : Nat} {s : Spot}
    (tok : Nat) (hrep : repOk b = true)
    (hr : r < b.rows) (hc : c < b.cols)
    (hs : getSpot b r c = some s)
    (hfu : s.faceUp = true) (hctl : s.controller = some p)
    (hcnt : controlledCount b p = 1) :
    flipCard p r c tok b =
      .err "cannot flip: card already controlled by you" (cleanedNotified p b) := by
  obtain ⟨ca, fu, ct⟩ := s
  dsimp only at hctl hfu
  subst hctl
  subst hfu
  have hok := repOk_getSpot hrep hs
  rw [spotOk, Bool.and_eq_true] at hok
  have hinv := hok.1
  rw [spotInv, Bool.and_eq_true] at hinv
  have hca : ca.isSome = true := by
    have h1 := hinv.1
    simpa using h1
  have hcle : cleanupCompletedTurns p b =
      (indicesRM b).foldl flipDownStep (b, false) :=
    cleanup_of_count_le_one (by omega)
  have hscl : getSpot (cleanupCompletedTurns p b).1 r c =
      some ⟨ca, true, some p⟩ := by
    rw [hcle]
    exact flipDownFold_spot_ctrl_some hs rfl
  have hscn : getSpot (cleanedNotified p b) r c = some ⟨ca, true, some p⟩ := by
    rw [getSpot_cleanedNotified]
    exact hscl
  have hcntc : controlledCount (cleanedNotified p b) p = 1 := by
    rw [controlledCount_cleanedNotified,
      controlledCount_cleanup_of_le_one (by omega), hcnt]
  have hdims := dims_cleanedNotified p b
  rw [flipCard]
  simp only [flipLocked]
  split
  · rename_i hcon
    exfalso
    rcases hcon with h | h
    · rw [hdims.1] at h; omega
    · rw [hdims.2] at h; omega
  · split
    · rename_i heq
      rw [hscn] at heq
      cases heq
    · rename_i spot hspot
      rw [hscn] at hspot
      have he := Option.some.inj hspot
      subst he
      split
      · rename_i hcard
        exfalso
        cases hcaE : ca with
        | none => rw [hcaE] at hca; cases hca
        | some v => rw [hcaE] at hcard; simp at hcard
      · split
        · rename_i h2
          rw [hcntc] at h2
          omega
        · split
          · rfl
          · rename_i hog
            exfalso
            exact hog ⟨rfl, rfl⟩

/-- Counterexample for C7 as frozen: on the `1x2` board `[A, A]`, `p1`
holds both cells as a completed matched pair; `(0,0)` is face-up and
controlled by `p1`, yet flipping it faults with "no card at position"
(cleanup removed the pair first), not with "already controlled by
you". -/
theorem own_card_reflip_fault_cex :
    getSpot exAA2 0 0 = some ⟨some "A", true, some "p1"⟩ ∧
    errMsgOf (flipCard "p1" 0 0 32 exAA2) =
      some "cannot flip: no card at position" := by
  exact ⟨by decide, by decide⟩

/-- Witness for C7's amended theorem: `p1` holds only `(0,0)` on the
handout board and re-flips it. -/
theorem own_card_reflip_fault_witness :
    (repOk exAABB1 = true ∧ getSpot exAABB1 0 0 = some ⟨some "A", true, some "p1"⟩ ∧
      controlledCount exAABB1 "p1" = 1) ∧
    flipCard "p1" 0 0 33 exAABB1 =
      .err "cannot flip: card already controlled by you"
        (cleanedNotified "p1" exAABB1) :=
  ⟨⟨by decide, by decide, by decide⟩,
    own_card_reflip_fault 33 (by decide) (by decide) (by decide)
      (show getSpot exAABB1 0 0 = some ⟨some "A", true, some "p1"⟩ by decide)
      rfl rfl (by decide)⟩

/-! ### Claim C5 -/

/-- C5 (amended): a `flipCard` call that fails with a validation error
leaves the board exactly in the state produced by the cleanup pass that
runs at the start of the call (plus its watcher notification); in
particular, when that cleanup pass has nothing to do, the state after
the failed call equals the state before it.  (As frozen — "the state
after the failed call equals the state before the call" — the claim is
refuted by the counterexample: the cleanup pass runs before validation
and its mutations persist.) -/
theorem flip_error_state {p : String} {row col tok : Nat} {b b' : Board}
    {e : String} (h : flipCard p row col tok b = .err e b') :
    b' = cleanedNotified p b ∧
    ((cleanupCompletedTurns p b).2 = false → b' = b) := by
  have hmain : b' = cleanedNotified p b := by
    rw [flipCard] at h
    simp only [flipLocked] at h
    split at h
    · cases h; rfl
    · split at h
      · cases h; rfl
      · split at h
        · cases h; rfl
        · split at h
          · cases h; rfl
          · split at h
            · cases h; rfl
            · split at h
              · cases h; rfl
              · split at h
                · cases h
                · cases h
  refine ⟨hmain, fun hflag => ?_⟩
  rw [hmain]
  exact cleanedNotified_of_flag_false hflag

/-- Counterexample for C5 as frozen: `p1` holds the matched pair on the
`1x2` board `[A, A]` and calls `flipCard` with an out-of-range column;
the call fails with "invalid coordinates", yet the board after the call
differs from the board before it (the cleanup pass removed the pair). -/
theorem flip_error_state_cex :
    errMsgOf (flipCard "p1" 0 5 34 exAA2) = some "invalid coordinates" ∧
    stateOf (flipCard "p1" 0 5 34 exAA2) ≠ exAA2 ∧
    getSpot exAA2 0 0 = some ⟨some "A", true, some "p1"⟩ ∧
    getSpot (stateOf (flipCard "p1" 0 5 34 exAA2)) 0 0 =
      some ⟨none, false, none⟩ := by
  exact ⟨by decide, by decide, by decide, by decide⟩

/-- Witness for C5's amended theorem: a fresh board, where the cleanup
pass has nothing to do, is left untouched by a failed flip. -/
theorem flip_error_state_witness :
    flipCard "p1" 9 9 35 exAABB =
      .err "invalid coordinates" (stateOf (flipCard "p1" 9 9 35 exAABB)) ∧
    (cleanupCompletedTurns "p1" exAABB).2 = false ∧
    stateOf (flipCard "p1" 9 9 35 exAABB) = exAABB := by
  refine ⟨by decide, by decide, ?_⟩
  have h : flipCard "p1" 9 9 35 exAABB =
      .err "invalid coordinates" (stateOf (flipCard "p1" 9 9 35 exAABB)) := by decide
  exact (flip_error_state h).2 (by decide)

/-! ### Claim C6 -/

/-- C6: the code contradicts the stated contract.  `p2` is suspended in
the card-availability queue for `(0,0)` while `p1` controls it; `p1`'s
mismatching second flip clears the controller of `(0,0)` inside
`flipCard` (Rule 2-E) without invoking the card-availability
notification, so after the call the cell is uncontrolled yet `p2`'s
waiter is still registered and unwoken. -/
theorem mismatch_clear_skips_notification :
    waitersAt exABCD2 0 0 = [77] ∧
    getSpot exABCD2 0 0 = some ⟨some "A", true, some "p1"⟩ ∧
    errMsgOf (flipCard "p1" 1 0 21 exABCD2) = none ∧
    getSpot exABCD3 0 0 = some ⟨some "A", true, none⟩ ∧
    waitersAt exABCD3 0 0 = [77] := by
  exact ⟨by decide, by decide, by decide, by decide, by decide⟩

/-! ### Claim C8 -/

/-- C8 (amended): the snapshot phase collects each present card value
exactly once (the collection is duplicate-free and holds exactly the
values present on the board); the compute phase invokes `f` only on
distinct collected values, never once per cell, and never twice on the
same value — exactly once per collected value whenever the compute
phase succeeds (on an aborting call, values after the first invalid
result are never passed to `f`, see the counterexample); and the apply
phase rewrites a cell only through the precomputed value-to-value
mapping, so two cells holding equal mapped card values at apply time
receive equal new values. -/
theorem map_transform_per_value (b : Board) (f : String → String) :
    (collectUniqueCards b).Nodup ∧
    (∀ v, v ∈ collectUniqueCards b ↔ cardPresent b v = true) ∧
    (transformCalls f (collectUniqueCards b)).Nodup ∧
    (∀ v ∈ transformCalls f (collectUniqueCards b), v ∈ collectUniqueCards b) ∧
    (∀ m, computeTransform f (collectUniqueCards b) = .ok m →
      transformCalls f (collectUniqueCards b) = collectUniqueCards b ∧
      List.map Prod.fst m = collectUniqueCards b ∧
      ∀ kv ∈ m, kv.2 = f kv.1) ∧
    (∀ (st : Board) (m : List (String × String)) (r1 c1 r2 c2 : Nat)
      (s1 s2 : Spot) (v : String),
      getSpot st r1 c1 = some s1 → getSpot st r2 c2 = some s2 →
      s1.card = some v → s2.card = some v → (m.lookup v).isSome = true →
      ∃ nv, m.lookup v = some nv ∧
        getSpot (applyTransform m st) r1 c1 = some { s1 with card := some nv } ∧
        getSpot (applyTransform m st) r2 c2 = some { s2 with card := some nv }) :=
  ⟨collectUniqueCards_nodup b, fun _ => mem_collectUniqueCards,
    transformCalls_nodup (collectUniqueCards_nodup b),
    fun _ hv => mem_transformCalls hv,
    fun _ hm => computeTransform_of_ok hm,
    fun _ _ _ _ _ _ _ _ _ h1 h2 hc1 hc2 hls =>
      applyTransform_pair h1 h2 hc1 hc2 hls⟩

/-- Counterexample for C8 as frozen: on a `1x2` board `[A, B]` with a
transform whose image of `A` is an invalid token, the snapshot collects
`[A, B]` but the aborting compute phase invokes `f` only on `A`: `B` is
a collected distinct value on which `f` is never invoked, so `f` is not
invoked "exactly once per distinct card value collected". -/
theorem map_transform_cex :
    collectUniqueCards (mkBoard 1 2 ["A", "B"]) = ["A", "B"] ∧
    mapCards "p1" exBadF (mkBoard 1 2 ["A", "B"]) =
      .error "invalid transformed card: x y" ∧
    transformCalls exBadF (collectUniqueCards (mkBoard 1 2 ["A", "B"])) = ["A"] ∧
    "B" ∈ collectUniqueCards (mkBoard 1 2 ["A", "B"]) ∧
    "B" ∉ transformCalls exBadF (collectUniqueCards (mkBoard 1 2 ["A", "B"])) :=
  ⟨by decide, by rfl, by decide, by decide, by decide⟩

/-! ### Claim C9 -/

theorem filterMap_eq_map_of {F : α → Option β} {g : α → β} :
    ∀ {l : List α}, (∀ a ∈ l, F a = some (g a)) → l.filterMap F = l.map g := by
  intro l
  induction l with
  | nil => intro _; rfl
  | cons a as ih =>
      intro h
      rw [List.filterMap_cons, h a (List.mem_cons_self a as), List.map_cons,
        ih (fun x hx => h x (List.mem_cons_of_mem a hx))]

/-- C9: `renderFor` never mutates the board (the render operation maps a
state to itself), and its output is the newline-joined list consisting
of the `RxC` dimension line followed by exactly one line per cell in
row-major order: `none` for a removed card, `down` for a face-down card,
`my <card>` for a face-up card controlled by the viewer, and
`up <card>` for a face-up card controlled by someone else or by
no one. -/
theorem renderFor_pure_single_pass {b : Board} {p : String} (hshape : shapeOk b) :
    applyOp (Op.render p) b = b ∧
    renderFor b p = String.intercalate "\n" (renderLines b p) ++ "\n" ∧
    renderLines b p =
      (toString b.rows ++ "x" ++ toString b.cols) ::
        (indicesRM b).map (fun rc =>
          match getSpot b rc.1 rc.2 with
          | none => ""
          | some s =>
              match s.card with
              | none => "none"
              | some card =>
                  if s.faceUp = false then "down"
                  else if s.controller = some p then "my " ++ card
                  else "up " ++ card) := by
  refine ⟨rfl, rfl, ?_⟩
  rw [renderLines]
  congr 1
  apply filterMap_eq_map_of
  intro rc hrc
  obtain ⟨hr, hc⟩ := mem_indicesRM.mp (show (rc.1, rc.2) ∈ indicesRM b from hrc)
  have hsome := getSpot_isSome_of_mem hshape hr hc
  rw [Option.isSome_iff_exists] at hsome
  obtain ⟨s, hs⟩ := hsome
  rw [hs, Option.map_some']
  congr 1
  obtain ⟨ca, fu, ct⟩ := s
  rw [viewOf]
  cases ca with
  | none => rfl
  | some card => cases fu <;> rfl

/-- Witness for C9 on the post-removal scenario board. -/
theorem renderFor_pure_single_pass_witness :
    shapeOk exAABB3 ∧ applyOp (Op.render "p1") exAABB3 = exAABB3 ∧
    renderFor exAABB3 "p1" = "2x2\nnone\nnone\nmy B\ndown\n" :=
  ⟨by decide, (renderFor_pure_single_pass (by decide)).1, by rfl⟩

/-! ### Claim C10 -/

/-- C10: a successful `mapCards` call returns exactly
`renderFor(player)` evaluated on the board state left behind by the
apply phase (the transformed board with its watcher notification) — a
rendering of the post-transform board, whose first line is the `RxC`
dimension line. -/
theorem mapCards_returns_post_render {p : String} {f : String → String}
    {b b' : Board} {out : String}
    (h : mapCards p f b = .ok (out, b')) :
    out = renderFor b' p ∧
    (∃ m, computeTransform f (collectUniqueCards b) = .ok m ∧
      b' = notifyWatchers (applyTransform m b)) ∧
    (∃ rest, renderLines b' p =
      (toString b'.rows ++ "x" ++ toString b'.cols) :: rest) := by
  rw [mapCards] at h
  cases hcomp : computeTransform f (collectUniqueCards b) with
  | error e => rw [hcomp] at h; cases h
  | ok m =>
      rw [hcomp] at h
      have h2 := Except.ok.inj h
      have hout : renderFor (notifyWatchers (applyTransform m b)) p = out :=
        congrArg Prod.fst h2
      have hb : notifyWatchers (applyTransform m b) = b' := congrArg Prod.snd h2
      refine ⟨?_, ⟨m, rfl, hb.symm⟩, ⟨_, rfl⟩⟩
      rw [← hout, hb]

/-- Witness for C10: mapping `v ↦ v ++ "Z"` over the board where `p1`
holds the matched `A` pair returns the rendering of the transformed
board. -/
theorem mapCards_returns_post_render_witness :
    ∃ out b', mapCards "p1" exMapF exAABB2 = .ok (out, b') ∧
      out = renderFor b' "p1" ∧ out = "2x2\nmy AZ\nmy AZ\ndown\ndown\n" := by
  have h : mapCards "p1" exMapF exAABB2 =
      .ok (renderFor (notifyWatchers
          (applyTransform [("A", "AZ"), ("B", "BZ")] exAABB2)) "p1",
        notifyWatchers (applyTransform [("A", "AZ"), ("B", "BZ")] exAABB2)) := by rfl
  exact ⟨_, _, h, (mapCards_returns_post_render h).1, by rfl⟩

end MemoryScramble
